import Mathlib

/-!
# approx: root finding for real polynomials

A shallow embedding of the Go package `approx` (v1.0.0, `src/approx.go`, together with the
interpolation and finite-difference solvers of v0.2.1) and theorems about it.

Conventions of the embedding:

* `float64` is modelled by an arbitrary linearly ordered field `α` (exact arithmetic); concrete
  evaluations are carried out over `ℚ` on inputs whose `float64` arithmetic is exact as well.
  Division by zero yields `0` in a field, whereas `float64` yields an infinity or a NaN.
* the evaluator, the differentiator and the accuracy-bounded solvers `Newton`, `Halley`,
  `Steffensen`, `Secant` and `Broyden` are written over any number type `F` with the operations
  they use; what is proved
  for every such `F` holds in particular for `float64` with its rounding, overflow, infinities
  and NaN. `Extended α` is such a type: exact arithmetic with the infinities and NaN of `float64`.
* a Go result `(float64, error)` is the pair `α × Option Err`, with `none` for a `nil` error.
* a bounded `for` loop is `forCount`; an unbounded loop (`for cond { ... }`) or a recursion is
  given a fuel argument and returns `none` when the fuel does not suffice.
* an iteration count (`int`) is an integer; where the source computes with it
  (`iterations+2` in `SecantIter`), the result wraps around as a 64-bit `int` does.
* `xs.getD i 0` stands for the slice access `xs[i]`.
-/

namespace Approx

variable {α : Type} [LinearOrderedField α]

/-! ## Data model -/

/-- Coefficients `c₀, c₁, c₂, ...` of a polynomial (`type Polynomial []float64`). -/
abbrev Polynomial (α : Type) := List α

/-- The values built by `errors.New`, one constructor for each message of the package. -/
inductive Err
  /-- Message `"error"`. -/
  | generic
  /-- Message `"both x0 and x1 have same sign"`. -/
  | sameSign
  /-- Message `"enter a differentiable polynomial"`. -/
  | notDifferentiable
  /-- Message `"enter a twice-differentiable polynomial"`. -/
  | notTwiceDifferentiable
  deriving DecidableEq, Repr

/-- Go `math.Abs` on the number type `F`. -/
class HasAbs (F : Type) where
  /-- The absolute value `math.Abs(x)`. -/
  fabs : F → F

instance instHasAbsField : HasAbs α := ⟨fun x => |x|⟩

/-- A `float64` value up to rounding and overflow: a number of `α`, an infinity (`inf true` is
`-Inf`, `inf false` is `+Inf`) or NaN. Zero has no sign: it stands for `+0`. -/
inductive Extended (α : Type)
  /-- A finite value. -/
  | fin (x : α)
  /-- An infinity, negative when the flag is `true`. -/
  | inf (negative : Bool)
  /-- Not a number. -/
  | nan
  deriving DecidableEq, Repr

namespace Extended

/-- IEEE 754 addition. -/
def add : Extended α → Extended α → Extended α
  | fin a, fin b => fin (a + b)
  | fin _, inf t => inf t
  | inf s, fin _ => inf s
  | inf s, inf t => if s = t then inf s else nan
  | _, _ => nan

/-- IEEE 754 negation. -/
def neg : Extended α → Extended α
  | fin a => fin (-a)
  | inf s => inf (!s)
  | nan => nan

/-- IEEE 754 multiplication (`0 * Inf` is NaN). -/
def mul : Extended α → Extended α → Extended α
  | fin a, fin b => fin (a * b)
  | fin a, inf t => if a = 0 then nan else inf (decide (a < 0) != t)
  | inf s, fin b => if b = 0 then nan else inf (s != decide (b < 0))
  | inf s, inf t => inf (s != t)
  | _, _ => nan

/-- IEEE 754 division, with `+0` for every zero: `a / 0` is `+Inf` for `a > 0`, `-Inf` for
`a < 0` and NaN for `a = 0`. -/
def div : Extended α → Extended α → Extended α
  | fin a, fin b => if b = 0 then (if a = 0 then nan else inf (decide (a < 0))) else fin (a / b)
  | fin _, inf _ => fin 0
  | inf s, fin b => inf (s != decide (b < 0))
  | inf _, inf _ => nan
  | _, _ => nan

/-- Go `math.Pow(x, float64(n))` for a natural number `n`: `1` for `n = 0` whatever `x` is. -/
def pow : Extended α → Nat → Extended α
  | _, 0 => fin 1
  | fin a, n + 1 => fin (a ^ (n + 1))
  | inf s, n + 1 => inf (s && decide (n % 2 = 0))
  | nan, _ + 1 => nan

/-- Go `math.Abs`. -/
def abs : Extended α → Extended α
  | fin a => fin |a|
  | inf _ => inf false
  | nan => nan

/-- The comparison `<` of `float64`: false as soon as one side is NaN. -/
def ltb : Extended α → Extended α → Bool
  | fin a, fin b => decide (a < b)
  | fin _, inf t => !t
  | inf s, fin _ => s
  | inf s, inf t => s && !t
  | _, _ => false

/-- The comparison `<=` of `float64`: false as soon as one side is NaN. -/
def leb : Extended α → Extended α → Bool
  | fin a, fin b => decide (a ≤ b)
  | fin _, inf t => !t
  | inf s, fin _ => s
  | inf s, inf t => s || !t
  | _, _ => false

instance : Zero (Extended α) := ⟨fin 0⟩
instance : NatCast (Extended α) := ⟨fun n => fin (n : α)⟩
instance : OfNat (Extended α) 2 := ⟨fin 2⟩
instance : Add (Extended α) := ⟨add⟩
instance : Sub (Extended α) := ⟨fun a b => add a (neg b)⟩
instance : Mul (Extended α) := ⟨mul⟩
instance : Div (Extended α) := ⟨div⟩
instance : Pow (Extended α) Nat := ⟨pow⟩
instance : LT (Extended α) := ⟨fun a b => ltb a b = true⟩
instance : LE (Extended α) := ⟨fun a b => leb a b = true⟩
instance : DecidableRel (fun a b : Extended α => a < b) := fun a b => decEq (ltb a b) true
instance : DecidableRel (fun a b : Extended α => a ≤ b) := fun a b => decEq (leb a b) true
instance : HasAbs (Extended α) := ⟨abs⟩

end Extended

/-! ## Loops -/

/-- The loop `for i := lo; <count more rounds>; i += 1 { s = body i s }`. -/
def forCount {σ : Type} (body : Nat → σ → σ) : Nat → Nat → σ → σ
  | _, 0, s => s
  | i, count + 1, s => forCount body (i + 1) count (body i s)

/-- The loop `for i := lo; i < hi; i += 1 { s = body i s }`. -/
def forRange {σ : Type} (lo hi : Nat) (body : Nat → σ → σ) (init : σ) : σ :=
  forCount body lo (hi - lo) init

/-- The loop `for cond s { s = body s }`, which returns `none` when `fuel` rounds do not
reach a state in which `cond` fails. -/
def whileLoop {σ : Type} (cond : σ → Prop) [DecidablePred cond] (body : σ → σ) : Nat → σ → Option σ
  | 0, s => if cond s then none else some s
  | fuel + 1, s => if cond s then whileLoop cond body fuel (body s) else some s

/-- The slice access `approximations[len(approximations)-1]`. -/
def last {F : Type} [Zero F] (approximations : List F) : F :=
  approximations.getD (approximations.length - 1) 0

/-- The slice access `approximations[len(approximations)-2]`. -/
def secondLast {F : Type} [Zero F] (approximations : List F) : F :=
  approximations.getD (approximations.length - 2) 0

/-! ## Auxiliary functions -/

/-- Go `execute`: the value of `poly` at `x`, accumulated term by term; `x ^ i` stands for
`math.Pow(x, float64(i))`. -/
def execute {F : Type} [Zero F] [Add F] [Mul F] [Pow F Nat] (poly : Polynomial F) (x : F) : F :=
  forRange 0 poly.length (fun i result => result + poly.getD i 0 * x ^ i) 0

/-- Go `g`, for `Steffensen` and `SteffensenIter`. -/
def g {F : Type} [Zero F] [Add F] [Sub F] [Mul F] [Div F] [Pow F Nat] (poly : Polynomial F)
    (x : F) : F :=
  let h := execute poly x
  (execute poly (x + h) - execute poly x) / h

/-- The loop `for i := 1; i < len(poly); i += 1 { derivative = append(derivative, float64(i)*poly[i]) }`
which `Newton`, `NewtonIter`, `Halley` and `HalleyIter` run on `poly`. -/
def derivative {F : Type} [Zero F] [NatCast F] [Mul F] (poly : Polynomial F) : Polynomial F :=
  forRange 1 poly.length (fun i derivative => derivative ++ [(i : F) * poly.getD i 0]) []

/-- The second loop of `Halley` and `HalleyIter`:
`for j := 1; j < len(derivative); j += 1 { doubleDerivative = append(doubleDerivative, float64(j)*derivative[j]) }`. -/
def doubleDerivative {F : Type} [Zero F] [NatCast F] [Mul F] (poly : Polynomial F) :
    Polynomial F :=
  forRange 1 (derivative poly).length
    (fun j doubleDerivative => doubleDerivative ++ [(j : F) * (derivative poly).getD j 0]) []

/-! ## Bracketing -/

/-- One activation of Go `Bisection` (v1.0.0), with `self` for the recursive call. The result of
the recursive call is dropped by the source; only whether it returns matters. -/
def BisectionBody (self : α → α → Option (α × Option Err)) (poly : Polynomial α)
    (x0 x1 accuracy : α) : Option (α × Option Err) :=
  if |execute poly ((x0 + x1) / 2)| < |accuracy| then some ((x0 + x1) / 2, none)
  else if execute poly x0 < 0 ∧ execute poly x1 > 0 then
    if execute poly ((x0 + x1) / 2) > 0 then
      let x1 := (x0 + x1) / 2
      (self x0 x1).map fun _ => ((x0 + x1) / 2, none)
    else if execute poly ((x0 + x1) / 2) < 0 then
      let x0 := (x0 + x1) / 2
      (self x0 x1).map fun _ => ((x0 + x1) / 2, none)
    else some (0, some Err.generic)
  else if execute poly x0 > 0 ∧ execute poly x1 < 0 then
    if execute poly ((x0 + x1) / 2) > 0 then
      let x0 := (x0 + x1) / 2
      (self x0 x1).map fun _ => ((x0 + x1) / 2, none)
    else if execute poly ((x0 + x1) / 2) < 0 then
      let x1 := (x0 + x1) / 2
      (self x0 x1).map fun _ => ((x0 + x1) / 2, none)
    else some (0, some Err.generic)
  else some (0, some Err.sameSign)

/-- Go `Bisection` (v1.0.0); `fuel` bounds the depth of the recursion. -/
def Bisection : Nat → Polynomial α → α → α → α → Option (α × Option Err)
  | 0, poly, x0, x1, accuracy => BisectionBody (fun _ _ => none) poly x0 x1 accuracy
  | fuel + 1, poly, x0, x1, accuracy =>
    BisectionBody (fun a b => Bisection fuel poly a b accuracy) poly x0 x1 accuracy

/-- The loop of the first branch of Go `BisectionIter` (`f(x0) < 0 < f(x1)`): `Except.ok` carries
the bracket at the end of the loop or at `break`, `Except.error` a `return` from inside the loop. -/
def bisectionIterLoopUp (poly : Polynomial α) : Nat → α → α → Except (α × Option Err) (α × α)
  | 0, x0, x1 => Except.ok (x0, x1)
  | count + 1, x0, x1 =>
    if execute poly ((x0 + x1) / 2) > 0 then bisectionIterLoopUp poly count x0 ((x0 + x1) / 2)
    else if execute poly ((x0 + x1) / 2) < 0 then bisectionIterLoopUp poly count ((x0 + x1) / 2) x1
    else if execute poly ((x0 + x1) / 2) = 0 then Except.ok (x0, x1)
    else Except.error (0, some Err.generic)

/-- The loop of the second branch of Go `BisectionIter` (`f(x0) > 0 > f(x1)`). -/
def bisectionIterLoopDown (poly : Polynomial α) : Nat → α → α → Except (α × Option Err) (α × α)
  | 0, x0, x1 => Except.ok (x0, x1)
  | count + 1, x0, x1 =>
    if execute poly ((x0 + x1) / 2) > 0 then bisectionIterLoopDown poly count ((x0 + x1) / 2) x1
    else if execute poly ((x0 + x1) / 2) < 0 then bisectionIterLoopDown poly count x0 ((x0 + x1) / 2)
    else if execute poly ((x0 + x1) / 2) = 0 then Except.ok (x0, x1)
    else Except.error (0, some Err.generic)

/-- Go `BisectionIter` (v1.0.0). The second branch has no `return` after its loop and falls
through to the last statement of the function. -/
def BisectionIter (poly : Polynomial α) (x0 x1 : α) (iterations : Int) : α × Option Err :=
  if execute poly x0 < 0 ∧ execute poly x1 > 0 then
    match bisectionIterLoopUp poly iterations.toNat x0 x1 with
    | Except.error r => r
    | Except.ok (x0, x1) => ((x0 + x1) / 2, none)
  else if execute poly x0 > 0 ∧ execute poly x1 < 0 then
    match bisectionIterLoopDown poly iterations.toNat x0 x1 with
    | Except.error r => r
    | Except.ok _ => (0, some Err.sameSign)
  else (0, some Err.sameSign)

/-! ## Iterative -/

/-- Go `Newton` (v1.0.0), over any number type `F`; `fuel` bounds the number of rounds of its
loop. Over a field a vanishing denominator gives `x / 0 = 0`, which `float64` does not do; over
`Extended α` it gives an infinity or NaN as in `float64`, and a NaN residual ends the loop. -/
def Newton {F : Type} [Zero F] [Add F] [Sub F] [Mul F] [Div F] [NatCast F] [Pow F Nat] [LT F]
    [DecidableRel (fun a b : F => a < b)] [HasAbs F]
    (fuel : Nat) (poly : Polynomial F) (x0 accuracy : F) : Option (F × Option Err) :=
  if poly.length ≤ 1 then some (0, some Err.notDifferentiable)
  else
    let derivative := derivative poly
    (whileLoop
      (fun approximations => HasAbs.fabs (execute poly (last approximations)) > HasAbs.fabs accuracy)
      (fun approximations => approximations ++
        [last approximations - execute poly (last approximations) / execute derivative (last approximations)])
      fuel [x0]).map fun approximations => (last approximations, none)

/-- Go `NewtonIter` (v1.0.0): the loop is `for j := 0; j <= iterations; j += 1` and reads
`approximations[j]`. -/
def NewtonIter (poly : Polynomial α) (x0 : α) (iterations : Int) : α × Option Err :=
  if poly.length ≤ 1 then (0, some Err.notDifferentiable)
  else
    let derivative := derivative poly
    let approximations := forCount
      (fun j approximations => approximations ++
        [approximations.getD j 0 -
          execute poly (last approximations) / execute derivative (last approximations)])
      0 (iterations + 1).toNat [x0]
    (last approximations, none)

/-- The assignment to `newApproximation` in Go `Halley` and `HalleyIter` (v1.0.0), as a function of
the slice `approximations`. -/
def halleyNext {F : Type} [Zero F] [Add F] [Sub F] [Mul F] [Div F] [Pow F Nat] [OfNat F 2]
    (poly derivative doubleDerivative : Polynomial F) (approximations : List F) : F :=
  last approximations -
    2 * execute poly (last approximations) * execute derivative (last approximations) /
      ((2 * execute derivative (last approximations) * execute derivative (last approximations)) -
        execute poly (last approximations) * execute doubleDerivative (last approximations))

/-- Go `Halley` (v1.0.0), over any number type `F`; `fuel` bounds the number of rounds of its
loop. As for `Newton`, a vanishing denominator is followed as `float64` does over `Extended α`. -/
def Halley {F : Type} [Zero F] [Add F] [Sub F] [Mul F] [Div F] [NatCast F] [Pow F Nat]
    [OfNat F 2] [LT F] [DecidableRel (fun a b : F => a < b)] [HasAbs F]
    (fuel : Nat) (poly : Polynomial F) (x0 accuracy : F) : Option (F × Option Err) :=
  if poly.length ≤ 2 then some (0, some Err.notTwiceDifferentiable)
  else
    let derivative := derivative poly
    let doubleDerivative := doubleDerivative poly
    (whileLoop
      (fun approximations => HasAbs.fabs (execute poly (last approximations)) > HasAbs.fabs accuracy)
      (fun approximations => approximations ++ [halleyNext poly derivative doubleDerivative approximations])
      fuel [x0]).map fun approximations => (last approximations, none)

/-- Go `HalleyIter` (v1.0.0): the loop is `for k := 0; k < iterations; k += 1`. -/
def HalleyIter (poly : Polynomial α) (x0 : α) (iterations : Int) : α × Option Err :=
  if poly.length ≤ 2 then (0, some Err.notTwiceDifferentiable)
  else
    let derivative := derivative poly
    let doubleDerivative := doubleDerivative poly
    let approximations := forCount
      (fun _ approximations => approximations ++ [halleyNext poly derivative doubleDerivative approximations])
      0 iterations.toNat [x0]
    (last approximations, none)

/-- Go `Steffensen` (v1.0.0), over any number type `F`; `fuel` bounds the number of rounds of
its loop. As for `Newton`, a vanishing denominator is followed as `float64` does over
`Extended α`. -/
def Steffensen {F : Type} [Zero F] [Add F] [Sub F] [Mul F] [Div F] [Pow F Nat] [LT F]
    [DecidableRel (fun a b : F => a < b)] [HasAbs F]
    (fuel : Nat) (poly : Polynomial F) (x0 accuracy : F) : Option F :=
  (whileLoop
    (fun approximations => HasAbs.fabs (execute poly (last approximations)) > HasAbs.fabs accuracy)
    (fun approximations => approximations ++
      [last approximations - execute poly (last approximations) / g poly (last approximations)])
    fuel [x0]).map fun approximations => last approximations

/-- Go `SteffensenIter` (v1.0.0): the loop is `for i := 0; i < iterations; i += 1`. -/
def SteffensenIter (poly : Polynomial α) (x0 : α) (iterations : Int) : α :=
  last (forCount
    (fun _ approximations => approximations ++
      [last approximations - execute poly (last approximations) / g poly (last approximations)])
    0 iterations.toNat [x0])

/-! ## Interpolation (v0.2.1; the same text as v0.1) -/

/-- The assignment to `newApproximation` in Go `Secant`, as a function of `approximations`. -/
def secantNext {F : Type} [Zero F] [Add F] [Sub F] [Mul F] [Div F] [Pow F Nat]
    (poly : Polynomial F) (approximations : List F) : F :=
  ((secondLast approximations * execute poly (last approximations)) -
      (last approximations * execute poly (secondLast approximations))) /
    (execute poly (last approximations) - execute poly (secondLast approximations))

/-- Go `Secant` (v0.2.1), over any number type `F`: the loop runs while
`math.Abs(approximations[len(approximations)-1]) < math.Abs(accuracy)`; `fuel` bounds its rounds. -/
def Secant {F : Type} [Zero F] [Add F] [Sub F] [Mul F] [Div F] [Pow F Nat] [LT F]
    [DecidableRel (fun a b : F => a < b)] [HasAbs F]
    (fuel : Nat) (poly : Polynomial F) (x0 x1 accuracy : F) : Option F :=
  (whileLoop (fun approximations => HasAbs.fabs (last approximations) < HasAbs.fabs accuracy)
    (fun approximations => approximations ++ [secantNext poly approximations])
    fuel [x0, x1]).map fun approximations => last approximations

/-- The assignment to `newApproximation` in round `i` of Go `SecantIter`, which reads
`approximations[i-2]` and `approximations[i-1]`. -/
def secantIterNext (poly : Polynomial α) (i : Nat) (approximations : List α) : α :=
  ((approximations.getD (i - 2) 0 * execute poly (approximations.getD (i - 1) 0)) -
      (approximations.getD (i - 1) 0 * execute poly (approximations.getD (i - 2) 0))) /
    (execute poly (approximations.getD (i - 1) 0) - execute poly (approximations.getD (i - 2) 0))

/-- The value of a 64-bit `int` expression whose exact value is `z`: the representative of `z`
modulo `2^64` in `[-2^63, 2^63)`. -/
def wrapInt64 (z : Int) : Int :=
  (z + 2 ^ 63) % 2 ^ 64 - 2 ^ 63

/-- The slice `approximations` of Go `SecantIter` (v0.2.1) when its loop
`for i := 2; i < iterations+2; i += 1` ends; the bound `iterations+2` is an `int` and wraps. -/
def secantIterApproximations (poly : Polynomial α) (x0 x1 : α) (iterations : Int) : List α :=
  forRange 2 (wrapInt64 (iterations + 2)).toNat
    (fun i approximations => approximations ++ [secantIterNext poly i approximations]) [x0, x1]

/-- Go `SecantIter` (v0.2.1). -/
def SecantIter (poly : Polynomial α) (x0 x1 : α) (iterations : Int) : α :=
  last (secantIterApproximations poly x0 x1 iterations)

/-! ## Finite-difference iteration (v0.2.1) -/

/-- Go `fPrime`, for `Broyden` and `BroydenIter`. -/
def fPrime {F : Type} [Zero F] [Add F] [Sub F] [Mul F] [Div F] [Pow F Nat]
    (poly : Polynomial F) (x0 x1 : F) : F :=
  (execute poly x1 - execute poly x0) / (x1 - x0)

/-- Go `Broyden` (v0.2.1), over any number type `F`: the loop runs while
`math.Abs(execute(poly, approximations[len(approximations)-1])) < math.Abs(accuracy)`; the
parameter `h` is not used; `fuel` bounds the rounds of the loop. -/
def Broyden {F : Type} [Zero F] [Add F] [Sub F] [Mul F] [Div F] [Pow F Nat] [LT F]
    [DecidableRel (fun a b : F => a < b)] [HasAbs F]
    (fuel : Nat) (poly : Polynomial F) (x0 x1 _h accuracy : F) : Option F :=
  (whileLoop
    (fun approximations => HasAbs.fabs (execute poly (last approximations)) < HasAbs.fabs accuracy)
    (fun approximations => approximations ++
      [last approximations - execute poly (last approximations) /
        fPrime poly (secondLast approximations) (last approximations)])
    fuel [x0, x1]).map fun approximations => last approximations

/-! ## The correction maps of the specification -/

/-- The Newton map `x ↦ x - f(x)/f'(x)` of the specification, with `f'` the polynomial whose
coefficients are `derivative poly`. -/
def newtonMap {F : Type} [Zero F] [Add F] [Sub F] [Mul F] [Div F] [NatCast F] [Pow F Nat]
    (poly : Polynomial F) (x : F) : F :=
  x - execute poly x / execute (derivative poly) x

/-- The Halley map `x ↦ x - 2 f(x) f'(x) / (2 f'(x)^2 - f(x) f''(x))` of the specification. -/
def halleyMap (poly : Polynomial α) (x : α) : α :=
  x - 2 * execute poly x * execute (derivative poly) x /
    (2 * execute (derivative poly) x ^ 2 - execute poly x * execute (doubleDerivative poly) x)

/-- The Steffensen map `x ↦ x - f(x)/g(x)` with `g(x) = (f(x + f(x)) - f(x)) / f(x)` of the
specification. -/
def steffensenMap (poly : Polynomial α) (x : α) : α :=
  x - execute poly x / ((execute poly (x + execute poly x) - execute poly x) / execute poly x)

/-- The secant sequence of the specification: `s 0 = x0`, `s 1 = x1` and
`s (k+2) = (s k * f (s (k+1)) - s (k+1) * f (s k)) / (f (s (k+1)) - f (s k))`. -/
def secantSeq (poly : Polynomial α) (x0 x1 : α) : Nat → α
  | 0 => x0
  | 1 => x1
  | k + 2 =>
    (secantSeq poly x0 x1 k * execute poly (secantSeq poly x0 x1 (k + 1)) -
        secantSeq poly x0 x1 (k + 1) * execute poly (secantSeq poly x0 x1 k)) /
      (execute poly (secantSeq poly x0 x1 (k + 1)) - execute poly (secantSeq poly x0 x1 k))

/-! ## Hypotheses on a bracket -/

/-- `L` is a Lipschitz constant of the polynomial function on `[min(x0,x1), max(x0,x1)]`. -/
def LipschitzOnBracket (poly : Polynomial α) (L x0 x1 : α) : Prop :=
  ∀ x y, min x0 x1 ≤ x → x ≤ max x0 x1 → min x0 x1 ≤ y → y ≤ max x0 x1 →
    |execute poly x - execute poly y| ≤ L * |x - y|

/-- The values of the polynomial at `x0` and `x1` have strictly opposite signs. -/
def SignChange (poly : Polynomial α) (x0 x1 : α) : Prop :=
  (execute poly x0 < 0 ∧ 0 < execute poly x1) ∨ (0 < execute poly x0 ∧ execute poly x1 < 0)

/-! ## Evaluation lemmas -/

@[simp]
theorem fabs_eq_abs (x : α) : HasAbs.fabs x = |x| := rfl

@[simp]
theorem Extended.zero_def : (0 : Extended α) = Extended.fin 0 := rfl

@[simp]
theorem Extended.natCast_def (n : Nat) : ((n : Nat) : Extended α) = Extended.fin (n : α) := rfl

@[simp]
theorem Extended.two_def : (2 : Extended α) = Extended.fin 2 := rfl

@[simp]
theorem Extended.add_def (a b : Extended α) : a + b = Extended.add a b := rfl

@[simp]
theorem Extended.sub_def (a b : Extended α) : a - b = Extended.add a (Extended.neg b) := rfl

@[simp]
theorem Extended.mul_def (a b : Extended α) : a * b = Extended.mul a b := rfl

@[simp]
theorem Extended.div_def (a b : Extended α) : a / b = Extended.div a b := rfl

@[simp]
theorem Extended.pow_def (a : Extended α) (n : Nat) : a ^ n = Extended.pow a n := rfl

@[simp]
theorem Extended.lt_def (a b : Extended α) : a < b ↔ Extended.ltb a b = true := Iff.rfl

@[simp]
theorem Extended.le_def (a b : Extended α) : a ≤ b ↔ Extended.leb a b = true := Iff.rfl

@[simp]
theorem Extended.fabs_def (a : Extended α) : HasAbs.fabs a = Extended.abs a := rfl

theorem wrapInt64_of_lt (z : Int) (h0 : 0 ≤ z) (h1 : z < 2 ^ 63) : wrapInt64 z = z := by
  unfold wrapInt64
  omega

theorem forCount_zero {σ : Type} (body : Nat → σ → σ) (i : Nat) (s : σ) :
    forCount body i 0 s = s := rfl

theorem forCount_succ {σ : Type} (body : Nat → σ → σ) (i count : Nat) (s : σ) :
    forCount body i (count + 1) s = forCount body (i + 1) count (body i s) := rfl

/-! ## Loop lemmas -/

theorem forCount_add_sum (term : Nat → α) (count i : Nat) (result : α) :
    forCount (fun i result => result + term i) i count result =
      result + ∑ j in Finset.range count, term (i + j) := by
  induction count generalizing i result with
  | zero => simp [forCount]
  | succ count ih =>
    rw [forCount_succ, ih, Finset.sum_range_succ', add_assoc]
    congr 1
    rw [add_comm]
    congr 1
    apply Finset.sum_congr rfl
    intro j _
    congr 1
    omega

theorem forCount_append_map {β : Type} (term : Nat → β) (count i : Nat) (acc : List β) :
    forCount (fun i acc => acc ++ [term i]) i count acc =
      acc ++ (List.range count).map (fun j => term (i + j)) := by
  induction count generalizing i acc with
  | zero => simp [forCount]
  | succ count ih =>
    rw [forCount_succ, ih, List.range_succ_eq_map, List.map_cons, List.map_map,
      List.append_assoc, List.singleton_append]
    congr 2
    apply List.map_congr_left
    intro j _
    simp only [Function.comp_apply, Nat.succ_eq_add_one]
    congr 1
    omega

theorem last_append_singleton {F : Type} [Zero F] (approximations : List F) (x : F) :
    last (approximations ++ [x]) = x := by
  simp [last, List.getD_eq_getElem?_getD]

theorem last_singleton {F : Type} [Zero F] (x : F) : last [x] = x := by
  simp [last]

theorem forCount_append_iterate (step : α → α) (body : Nat → List α → List α)
    (hbody : ∀ j approximations, approximations.length = j + 1 →
      body j approximations = approximations ++ [step (last approximations)])
    (count i : Nat) (approximations : List α) (hlen : approximations.length = i + 1) :
    last (forCount body i count approximations) = step^[count] (last approximations) := by
  induction count generalizing i approximations with
  | zero => simp [forCount]
  | succ count ih =>
    rw [forCount_succ, Function.iterate_succ_apply, hbody i approximations hlen,
      ih (i + 1) _ (by simp [hlen]), last_append_singleton]

theorem whileLoop_some_not_cond {σ : Type} (cond : σ → Prop) [DecidablePred cond] (body : σ → σ)
    (fuel : Nat) (s t : σ) (h : whileLoop cond body fuel s = some t) : ¬ cond t := by
  induction fuel generalizing s with
  | zero =>
    unfold whileLoop at h
    split_ifs at h with hc
    cases h
    exact hc
  | succ fuel ih =>
    unfold whileLoop at h
    split_ifs at h with hc
    · exact ih _ h
    · cases h
      exact hc

theorem whileLoop_fuel_succ {σ : Type} (cond : σ → Prop) [DecidablePred cond] (body : σ → σ)
    (fuel : Nat) (s t : σ) (h : whileLoop cond body fuel s = some t) :
    whileLoop cond body (fuel + 1) s = some t := by
  induction fuel generalizing s with
  | zero =>
    unfold whileLoop at h ⊢
    split_ifs at h ⊢ with hc
    exact h
  | succ fuel ih =>
    rw [whileLoop] at h ⊢
    split_ifs at h ⊢ with hc
    · exact ih _ h
    · exact h

theorem whileLoop_fuel_mono {σ : Type} (cond : σ → Prop) [DecidablePred cond] (body : σ → σ)
    (fuel fuel' : Nat) (hle : fuel ≤ fuel') (s t : σ) (h : whileLoop cond body fuel s = some t) :
    whileLoop cond body fuel' s = some t := by
  induction hle with
  | refl => exact h
  | step _ ih => exact whileLoop_fuel_succ _ _ _ _ _ ih

/-! ## The evaluator and the differentiator -/

theorem execute_eq_sum (poly : Polynomial α) (x : α) :
    execute poly x = ∑ i in Finset.range poly.length, poly.getD i 0 * x ^ i := by
  simp [execute, forRange, forCount_add_sum]

theorem derivative_eq_map (poly : Polynomial α) :
    derivative poly =
      (List.range (poly.length - 1)).map (fun j => ((1 + j : Nat) : α) * poly.getD (1 + j) 0) := by
  simp [derivative, forRange, forCount_append_map]

theorem derivative_length (poly : Polynomial α) : (derivative poly).length = poly.length - 1 := by
  simp [derivative_eq_map]

theorem derivative_getElem_opt (poly : Polynomial α) (i : Nat) :
    (derivative poly)[i]? = poly[i + 1]?.map (fun c => ((i : α) + 1) * c) := by
  rw [derivative_eq_map]
  by_cases hi : i + 1 < poly.length
  · have hi2 : i < poly.length - 1 := by omega
    simp [List.getElem?_map, List.getElem?_range hi2, List.getElem?_eq_getElem hi,
      List.getD_eq_getElem?_getD, add_comm]
  · have hi2 : ¬ i < poly.length - 1 := by omega
    have h1 : poly[i + 1]? = none := List.getElem?_eq_none (by omega)
    simp [h1]
    omega

theorem doubleDerivative_eq (poly : Polynomial α) :
    doubleDerivative poly = derivative (derivative poly) := rfl

/-! ## The recursion bound of `Bisection` -/

theorem BisectionBody_mono (self self' : α → α → Option (α × Option Err))
    (hself : ∀ a b r, self a b = some r → ∃ r', self' a b = some r')
    (poly : Polynomial α) (x0 x1 accuracy : α) (r : α × Option Err)
    (h : BisectionBody self poly x0 x1 accuracy = some r) :
    BisectionBody self' poly x0 x1 accuracy = some r := by
  unfold BisectionBody at h ⊢
  split_ifs at h ⊢
  all_goals first
    | exact h
    | (simp only [Option.map_eq_some'] at h ⊢
       obtain ⟨v, hv, hr⟩ := h
       obtain ⟨v', hv'⟩ := hself _ _ _ hv
       exact ⟨v', hv', hr⟩)

theorem Bisection_fuel_succ (fuel : Nat) (poly : Polynomial α) (x0 x1 accuracy : α)
    (r : α × Option Err) (h : Bisection fuel poly x0 x1 accuracy = some r) :
    Bisection (fuel + 1) poly x0 x1 accuracy = some r := by
  induction fuel generalizing x0 x1 r with
  | zero =>
    have h0 : BisectionBody (fun _ _ => none) poly x0 x1 accuracy = some r := h
    show BisectionBody (fun a b => Bisection 0 poly a b accuracy) poly x0 x1 accuracy = some r
    exact BisectionBody_mono _ _ (fun a b r hr => by cases hr) poly x0 x1 accuracy r h0
  | succ fuel ih =>
    have h0 : BisectionBody (fun a b => Bisection fuel poly a b accuracy) poly x0 x1 accuracy =
        some r := h
    show BisectionBody (fun a b => Bisection (fuel + 1) poly a b accuracy) poly x0 x1 accuracy =
      some r
    exact BisectionBody_mono _ _ (fun a b r hr => ⟨r, ih a b r hr⟩) poly x0 x1 accuracy r h0

theorem Bisection_fuel_mono (fuel fuel' : Nat) (hle : fuel ≤ fuel') (poly : Polynomial α)
    (x0 x1 accuracy : α) (r : α × Option Err) (h : Bisection fuel poly x0 x1 accuracy = some r) :
    Bisection fuel' poly x0 x1 accuracy = some r := by
  induction hle with
  | refl => exact h
  | step _ ih => exact Bisection_fuel_succ _ _ _ _ _ _ ih

/-! ## Results on the iteration-bounded loops -/

theorem NewtonIter_eq_iterate (poly : Polynomial α) (x0 : α) (n : Nat) (hlen : 2 ≤ poly.length) :
    NewtonIter poly x0 (n : Int) = ((newtonMap poly)^[n + 1] x0, none) := by
  have hguard : ¬ poly.length ≤ 1 := by omega
  have hcount : ((n : Int) + 1).toNat = n + 1 := by omega
  simp only [NewtonIter, hguard, if_false, hcount]
  rw [forCount_append_iterate (newtonMap poly) _ _ (n + 1) 0 [x0] rfl, last_singleton]
  intro j approximations hj
  have hlast : approximations.getD j 0 = last approximations := by
    simp [last, hj]
  simp only [hlast, newtonMap]

theorem BisectionIter_descending (poly : Polynomial α) (x0 x1 : α) (iterations : Int)
    (h0 : execute poly x0 > 0) (h1 : execute poly x1 < 0) :
    BisectionIter poly x0 x1 iterations = (0, some Err.sameSign) := by
  have hup : ¬ (execute poly x0 < 0 ∧ execute poly x1 > 0) := fun h => lt_asymm h.1 h0
  have hloop : ∀ (count : Nat) (a b : α), ∃ c d, bisectionIterLoopDown poly count a b = Except.ok (c, d) := by
    intro count
    induction count with
    | zero => intro a b; exact ⟨a, b, rfl⟩
    | succ count ih =>
      intro a b
      unfold bisectionIterLoopDown
      split_ifs with c1 c2 c3
      · exact ih _ _
      · exact ih _ _
      · exact ⟨a, b, rfl⟩
      · exact absurd (le_antisymm (not_lt.mp c1) (not_lt.mp c2)) c3
  obtain ⟨c, d, hcd⟩ := hloop iterations.toNat x0 x1
  simp only [BisectionIter, hup, if_false, h0, h1, and_self, if_true, hcd]

theorem HalleyIter_eq_iterate (poly : Polynomial α) (x0 : α) (n : Nat) (hlen : 3 ≤ poly.length) :
    HalleyIter poly x0 (n : Int) = ((halleyMap poly)^[n] x0, none) := by
  have hguard : ¬ poly.length ≤ 2 := by omega
  simp only [HalleyIter, hguard, if_false, Int.toNat_ofNat]
  rw [forCount_append_iterate (halleyMap poly) _ _ n 0 [x0] rfl, last_singleton]
  intro j approximations _
  simp only [halleyNext, halleyMap, pow_two, mul_assoc]

theorem SteffensenIter_eq_iterate (poly : Polynomial α) (x0 : α) (n : Nat) :
    SteffensenIter poly x0 (n : Int) = (steffensenMap poly)^[n] x0 := by
  simp only [SteffensenIter, Int.toNat_ofNat]
  rw [forCount_append_iterate (steffensenMap poly) _ _ n 0 [x0] rfl, last_singleton]
  intro j approximations _
  simp only [steffensenMap, g]

/-! ## Results on the accuracy-bounded loops -/

theorem Newton_guard_fails {F : Type} [Zero F] [Add F] [Sub F] [Mul F] [Div F] [NatCast F] [Pow F Nat]
    [LT F] [DecidableRel (fun a b : F => a < b)] [HasAbs F]
    (fuel : Nat) (poly : Polynomial F) (x0 accuracy r : F)
    (h : Newton fuel poly x0 accuracy = some (r, none)) :
    ¬ HasAbs.fabs (execute poly r) > HasAbs.fabs accuracy := by
  by_cases hguard : poly.length ≤ 1
  · simp [Newton, hguard] at h
  · simp only [Newton, hguard, if_false, Option.map_eq_some', Prod.mk.injEq, and_true] at h
    obtain ⟨a, ha, rfl⟩ := h
    have hstop := whileLoop_some_not_cond _ _ _ _ _ ha
    exact hstop

theorem Halley_guard_fails {F : Type} [Zero F] [Add F] [Sub F] [Mul F] [Div F] [NatCast F] [Pow F Nat]
    [OfNat F 2] [LT F] [DecidableRel (fun a b : F => a < b)] [HasAbs F]
    (fuel : Nat) (poly : Polynomial F) (x0 accuracy r : F)
    (h : Halley fuel poly x0 accuracy = some (r, none)) :
    ¬ HasAbs.fabs (execute poly r) > HasAbs.fabs accuracy := by
  by_cases hguard : poly.length ≤ 2
  · simp [Halley, hguard] at h
  · simp only [Halley, hguard, if_false, Option.map_eq_some', Prod.mk.injEq, and_true] at h
    obtain ⟨a, ha, rfl⟩ := h
    have hstop := whileLoop_some_not_cond _ _ _ _ _ ha
    exact hstop

theorem Steffensen_guard_fails {F : Type} [Zero F] [Add F] [Sub F] [Mul F] [Div F] [Pow F Nat]
    [LT F] [DecidableRel (fun a b : F => a < b)] [HasAbs F]
    (fuel : Nat) (poly : Polynomial F) (x0 accuracy r : F)
    (h : Steffensen fuel poly x0 accuracy = some r) :
    ¬ HasAbs.fabs (execute poly r) > HasAbs.fabs accuracy := by
  simp only [Steffensen, Option.map_eq_some'] at h
  obtain ⟨a, ha, rfl⟩ := h
  have hstop := whileLoop_some_not_cond _ _ _ _ _ ha
  exact hstop

theorem Newton_residual (fuel : Nat) (poly : Polynomial α) (x0 accuracy r : α)
    (h : Newton fuel poly x0 accuracy = some (r, none)) : |execute poly r| ≤ |accuracy| := by
  by_cases hguard : poly.length ≤ 1
  · simp [Newton, hguard] at h
  · simp only [Newton, hguard, if_false, Option.map_eq_some', Prod.mk.injEq, and_true] at h
    obtain ⟨a, ha, rfl⟩ := h
    have hstop := whileLoop_some_not_cond _ _ _ _ _ ha
    exact not_lt.mp hstop

theorem Halley_residual (fuel : Nat) (poly : Polynomial α) (x0 accuracy r : α)
    (h : Halley fuel poly x0 accuracy = some (r, none)) : |execute poly r| ≤ |accuracy| := by
  by_cases hguard : poly.length ≤ 2
  · simp [Halley, hguard] at h
  · simp only [Halley, hguard, if_false, Option.map_eq_some', Prod.mk.injEq, and_true] at h
    obtain ⟨a, ha, rfl⟩ := h
    have hstop := whileLoop_some_not_cond _ _ _ _ _ ha
    exact not_lt.mp hstop

theorem Steffensen_residual (fuel : Nat) (poly : Polynomial α) (x0 accuracy r : α)
    (h : Steffensen fuel poly x0 accuracy = some r) : |execute poly r| ≤ |accuracy| := by
  simp only [Steffensen, Option.map_eq_some'] at h
  obtain ⟨a, ha, rfl⟩ := h
  have hstop := whileLoop_some_not_cond _ _ _ _ _ ha
  exact not_lt.mp hstop

theorem Secant_magnitude (fuel : Nat) (poly : Polynomial α) (x0 x1 accuracy r : α)
    (h : Secant fuel poly x0 x1 accuracy = some r) : |accuracy| ≤ |r| := by
  simp only [Secant, Option.map_eq_some'] at h
  obtain ⟨a, ha, rfl⟩ := h
  have hstop := whileLoop_some_not_cond _ _ _ _ _ ha
  exact not_lt.mp hstop

/-! ## Results on the interpolation and finite-difference solvers -/

theorem getD_map_range (s : Nat → α) (i j : Nat) (hj : j < i) :
    ((List.range i).map s).getD j 0 = s j := by
  simp [List.getD_eq_getElem?_getD, List.getElem?_map, List.getElem?_range hj]

theorem secantIterNext_map_range (poly : Polynomial α) (x0 x1 : α) (k : Nat) :
    secantIterNext poly (k + 2) ((List.range (k + 2)).map (secantSeq poly x0 x1)) =
      secantSeq poly x0 x1 (k + 2) := by
  have h0 : k + 2 - 2 = k := by omega
  have h1 : k + 2 - 1 = k + 1 := by omega
  rw [secantIterNext, h0, h1, getD_map_range _ _ _ (by omega), getD_map_range _ _ _ (by omega)]
  rfl

theorem secantIter_forCount (poly : Polynomial α) (x0 x1 : α) (count i : Nat) (hi : 2 ≤ i) :
    forCount (fun i approximations => approximations ++ [secantIterNext poly i approximations])
        i count ((List.range i).map (secantSeq poly x0 x1)) =
      (List.range (i + count)).map (secantSeq poly x0 x1) := by
  induction count generalizing i with
  | zero => simp [forCount]
  | succ count ih =>
    obtain ⟨k, rfl⟩ : ∃ k, i = k + 2 := ⟨i - 2, by omega⟩
    rw [forCount_succ, secantIterNext_map_range]
    have hsnoc : (List.range (k + 2)).map (secantSeq poly x0 x1) ++ [secantSeq poly x0 x1 (k + 2)] =
        (List.range (k + 2 + 1)).map (secantSeq poly x0 x1) := by
      simp [List.range_succ]
    rw [hsnoc, ih (k + 2 + 1) (by omega)]
    congr 2
    omega

theorem secantIterApproximations_eq (poly : Polynomial α) (x0 x1 : α) (n : Nat)
    (hn : (n : Int) + 2 < 2 ^ 63) :
    secantIterApproximations poly x0 x1 (n : Int) =
      (List.range (n + 2)).map (secantSeq poly x0 x1) := by
  have hcount : (wrapInt64 ((n : Int) + 2)).toNat - 2 = n := by
    rw [wrapInt64_of_lt _ (by omega) hn]
    omega
  have hinit : [x0, x1] = (List.range 2).map (secantSeq poly x0 x1) := by
    simp [List.range_succ, secantSeq]
  rw [secantIterApproximations, forRange, hcount, hinit, secantIter_forCount _ _ _ _ _ (le_refl 2),
    add_comm]

theorem last_map_range (s : Nat → α) (n : Nat) : last ((List.range (n + 1)).map s) = s n := by
  simp [last, getD_map_range]

theorem Broyden_residual (fuel : Nat) (poly : Polynomial α) (x0 x1 h accuracy r : α)
    (hr : Broyden fuel poly x0 x1 h accuracy = some r) : |accuracy| ≤ |execute poly r| := by
  simp only [Broyden, Option.map_eq_some'] at hr
  obtain ⟨a, ha, rfl⟩ := hr
  have hstop := whileLoop_some_not_cond _ _ _ _ _ ha
  exact not_lt.mp hstop

/-- With the infinities and NaN of `float64`, `Broyden` on `x - 1` with seeds `3, 3/2` and
accuracy `1` does not return within 2 rounds and returns NaN after the third: the estimates are
`1`, `1` and then `1 - 0 / (0 / 0)`. -/
theorem Broyden_nan_exit :
    Broyden 2 [Extended.fin (-1 : ℚ), Extended.fin 1] (Extended.fin 3) (Extended.fin (3 / 2))
      (Extended.fin 0) (Extended.fin 1) = none ∧
    Broyden 3 [Extended.fin (-1 : ℚ), Extended.fin 1] (Extended.fin 3) (Extended.fin (3 / 2))
      (Extended.fin 0) (Extended.fin 1) = some Extended.nan := by
  constructor
  · simp [Broyden, fPrime, whileLoop, last, secondLast, execute, forRange, forCount, Extended.add,
      Extended.neg, Extended.mul, Extended.div, Extended.pow, Extended.abs, Extended.ltb]
    norm_num [abs_div]
  · simp [Broyden, fPrime, whileLoop, last, secondLast, execute, forRange, forCount, Extended.add,
      Extended.neg, Extended.mul, Extended.div, Extended.pow, Extended.abs, Extended.ltb]
    norm_num [abs_div]

/-! ## The value returned by `Bisection` -/

theorem BisectionBody_value (self : α → α → Option (α × Option Err)) (poly : Polynomial α)
    (x0 x1 accuracy r : α) (h : BisectionBody self poly x0 x1 accuracy = some (r, none)) :
    r = (x0 + x1) / 2 ∨ r = (x0 + (x0 + x1) / 2) / 2 ∨ r = ((x0 + x1) / 2 + x1) / 2 := by
  unfold BisectionBody at h
  split_ifs at h
  all_goals first
    | (simp only [Option.some.injEq, Prod.mk.injEq, and_true] at h
       exact Or.inl h.symm)
    | (simp only [Option.map_eq_some', Prod.mk.injEq, and_true] at h
       obtain ⟨_, _, hr⟩ := h
       first
         | exact Or.inr (Or.inl hr.symm)
         | exact Or.inr (Or.inr hr.symm))
    | (simp at h)

theorem Bisection_value (fuel : Nat) (poly : Polynomial α) (x0 x1 accuracy r : α)
    (h : Bisection fuel poly x0 x1 accuracy = some (r, none)) :
    r = (x0 + x1) / 2 ∨ r = (x0 + (x0 + x1) / 2) / 2 ∨ r = ((x0 + x1) / 2 + x1) / 2 := by
  cases fuel with
  | zero => exact BisectionBody_value _ poly x0 x1 accuracy r h
  | succ fuel => exact BisectionBody_value _ poly x0 x1 accuracy r h

/-! ## The polynomial function over the reals -/

theorem derivative_getD (poly : Polynomial α) (j : Nat) (hj : j < poly.length - 1) :
    (derivative poly).getD j 0 = ((j : α) + 1) * poly.getD (j + 1) 0 := by
  rw [derivative_eq_map, getD_map_range _ _ _ hj]
  push_cast
  rw [add_comm (1 : α), add_comm 1 j]

theorem execute_derivative_eq_sum (poly : Polynomial α) (x : α) :
    execute (derivative poly) x =
      ∑ i in Finset.range poly.length, poly.getD i 0 * ((i : α) * x ^ (i - 1)) := by
  rw [execute_eq_sum, derivative_length]
  cases hn : poly.length with
  | zero => simp
  | succ m =>
    rw [Finset.sum_range_succ']
    simp only [Nat.cast_zero, zero_mul, mul_zero, add_zero, Nat.add_sub_cancel]
    apply Finset.sum_congr rfl
    intro j hj
    rw [derivative_getD poly j (by rw [hn]; simpa using hj)]
    push_cast
    ring

theorem execute_hasDerivAt (poly : Polynomial ℝ) (x : ℝ) :
    HasDerivAt (fun y => execute poly y) (execute (derivative poly) x) x := by
  have hfun : (fun y => execute poly y) =
      fun y => ∑ i in Finset.range poly.length, poly.getD i 0 * y ^ i :=
    funext (execute_eq_sum poly)
  rw [hfun, execute_derivative_eq_sum]
  exact HasDerivAt.sum fun i _ => (hasDerivAt_pow i x).const_mul (poly.getD i 0)

theorem execute_continuous (poly : Polynomial ℝ) : Continuous fun y => execute poly y :=
  continuous_iff_continuousAt.mpr fun x => (execute_hasDerivAt poly x).continuousAt

theorem exists_lipschitzOnBracket (poly : Polynomial ℝ) (x0 x1 : ℝ) :
    ∃ L, LipschitzOnBracket poly L x0 x1 := by
  obtain ⟨C, hC⟩ := (isCompact_Icc (a := min x0 x1) (b := max x0 x1)).exists_bound_of_continuousOn
    (execute_continuous (derivative poly)).continuousOn
  refine ⟨C, fun x y hx1 hx2 hy1 hy2 => ?_⟩
  have hderiv : ∀ z ∈ Set.Icc (min x0 x1) (max x0 x1),
      HasDerivWithinAt (fun y => execute poly y) ((fun y => execute (derivative poly) y) z)
        (Set.Icc (min x0 x1) (max x0 x1)) z :=
    fun z _ => (execute_hasDerivAt poly z).hasDerivWithinAt
  have h : ‖(fun y => execute poly y) x - (fun y => execute poly y) y‖ ≤ C * ‖x - y‖ :=
    Convex.norm_image_sub_le_of_norm_hasDerivWithin_le hderiv hC (convex_Icc _ _)
      (Set.mem_Icc.mpr ⟨hy1, hy2⟩) (Set.mem_Icc.mpr ⟨hx1, hx2⟩)
  simpa [Real.norm_eq_abs] using h

/-! ## Halving a sign-changing bracket -/

theorem midpoint_mem (x0 x1 : α) :
    min x0 x1 ≤ (x0 + x1) / 2 ∧ (x0 + x1) / 2 ≤ max x0 x1 := by
  rcases le_total x0 x1 with h | h
  · rw [min_eq_left h, max_eq_right h]
    constructor <;> linarith
  · rw [min_eq_right h, max_eq_left h]
    constructor <;> linarith

theorem abs_midpoint_sub_left (x0 x1 : α) : |(x0 + x1) / 2 - x0| = |x1 - x0| / 2 := by
  have h : (x0 + x1) / 2 - x0 = (x1 - x0) / 2 := by ring
  rw [h, abs_div, abs_two]

theorem abs_right_sub_midpoint (x0 x1 : α) : |x1 - (x0 + x1) / 2| = |x1 - x0| / 2 := by
  have h : x1 - (x0 + x1) / 2 = (x1 - x0) / 2 := by ring
  rw [h, abs_div, abs_two]

theorem abs_midpoint_sub_le (a b z : α) (hlo : min a b ≤ z) (hhi : z ≤ max a b) :
    |(a + b) / 2 - z| ≤ |b - a| / 2 := by
  rcases le_total a b with h | h
  · rw [min_eq_left h] at hlo
    rw [max_eq_right h] at hhi
    rw [abs_of_nonneg (sub_nonneg.mpr h), abs_le]
    constructor <;> linarith
  · rw [min_eq_right h] at hlo
    rw [max_eq_left h] at hhi
    rw [abs_of_nonpos (sub_nonpos.mpr h), abs_le]
    constructor <;> linarith

theorem LipschitzOnBracket.left_half {poly : Polynomial α} {L x0 x1 : α}
    (h : LipschitzOnBracket poly L x0 x1) : LipschitzOnBracket poly L x0 ((x0 + x1) / 2) := by
  intro x y hx1 hx2 hy1 hy2
  have hm := midpoint_mem x0 x1
  have hlo : min x0 x1 ≤ min x0 ((x0 + x1) / 2) := le_min (min_le_left _ _) hm.1
  have hhi : max x0 ((x0 + x1) / 2) ≤ max x0 x1 := max_le (le_max_left _ _) hm.2
  exact h x y (hlo.trans hx1) (hx2.trans hhi) (hlo.trans hy1) (hy2.trans hhi)

theorem LipschitzOnBracket.right_half {poly : Polynomial α} {L x0 x1 : α}
    (h : LipschitzOnBracket poly L x0 x1) : LipschitzOnBracket poly L ((x0 + x1) / 2) x1 := by
  intro x y hx1 hx2 hy1 hy2
  have hm := midpoint_mem x0 x1
  have hlo : min x0 x1 ≤ min ((x0 + x1) / 2) x1 := le_min hm.1 (min_le_right _ _)
  have hhi : max ((x0 + x1) / 2) x1 ≤ max x0 x1 := max_le hm.2 (le_max_right _ _)
  exact h x y (hlo.trans hx1) (hx2.trans hhi) (hlo.trans hy1) (hy2.trans hhi)

theorem abs_execute_midpoint_lt (poly : Polynomial α) (L x0 x1 : α)
    (hsign : SignChange poly x0 x1) (hlip : LipschitzOnBracket poly L x0 x1)
    (hne : execute poly ((x0 + x1) / 2) ≠ 0) :
    |execute poly ((x0 + x1) / 2)| < L * |x1 - x0| / 2 := by
  have hm := midpoint_mem x0 x1
  have hl := hlip ((x0 + x1) / 2) x0 hm.1 hm.2 (min_le_left _ _) (le_max_left _ _)
  have hr := hlip x1 ((x0 + x1) / 2) (min_le_right _ _) (le_max_right _ _) hm.1 hm.2
  rw [abs_midpoint_sub_left, ← mul_div_assoc] at hl
  rw [abs_right_sub_midpoint, ← mul_div_assoc] at hr
  rcases lt_or_gt_of_ne hne with hneg | hpos
  · rw [abs_of_neg hneg]
    rcases hsign with ⟨_, h1⟩ | ⟨h0, _⟩
    · have := le_abs_self (execute poly x1 - execute poly ((x0 + x1) / 2))
      linarith
    · have := neg_abs_le (execute poly ((x0 + x1) / 2) - execute poly x0)
      linarith
  · rw [abs_of_pos hpos]
    rcases hsign with ⟨h0, _⟩ | ⟨_, h1⟩
    · have := le_abs_self (execute poly ((x0 + x1) / 2) - execute poly x0)
      linarith
    · have := neg_abs_le (execute poly x1 - execute poly ((x0 + x1) / 2))
      linarith

theorem BisectionBody_returns (self : α → α → Option (α × Option Err)) (poly : Polynomial α)
    (x0 x1 accuracy : α) (hacc : accuracy ≠ 0) (hsign : SignChange poly x0 x1)
    (hleft : SignChange poly x0 ((x0 + x1) / 2) → ∃ v, self x0 ((x0 + x1) / 2) = some v)
    (hright : SignChange poly ((x0 + x1) / 2) x1 → ∃ v, self ((x0 + x1) / 2) x1 = some v) :
    ∃ r, BisectionBody self poly x0 x1 accuracy = some (r, none) := by
  simp only [BisectionBody]
  by_cases hthr : |execute poly ((x0 + x1) / 2)| < |accuracy|
  · exact ⟨_, by rw [if_pos hthr]⟩
  · rw [if_neg hthr]
    have hne : execute poly ((x0 + x1) / 2) ≠ 0 := by
      intro hz
      apply hthr
      rw [hz, abs_zero]
      exact abs_pos.mpr hacc
    rcases hsign with ⟨h0, h1⟩ | ⟨h0, h1⟩
    · rw [if_pos ⟨h0, h1⟩]
      rcases lt_or_gt_of_ne hne with hneg | hpos
      · rw [if_neg (not_lt.mpr hneg.le), if_pos hneg]
        obtain ⟨v, hv⟩ := hright (Or.inl ⟨hneg, h1⟩)
        exact ⟨_, by rw [hv, Option.map_some']⟩
      · rw [if_pos hpos]
        obtain ⟨v, hv⟩ := hleft (Or.inl ⟨h0, hpos⟩)
        exact ⟨_, by rw [hv, Option.map_some']⟩
    · rw [if_neg (fun c => lt_asymm c.1 h0), if_pos ⟨h0, h1⟩]
      rcases lt_or_gt_of_ne hne with hneg | hpos
      · rw [if_neg (not_lt.mpr hneg.le), if_pos hneg]
        obtain ⟨v, hv⟩ := hleft (Or.inr ⟨h0, hneg⟩)
        exact ⟨_, by rw [hv, Option.map_some']⟩
      · rw [if_pos hpos]
        obtain ⟨v, hv⟩ := hright (Or.inr ⟨hpos, h1⟩)
        exact ⟨_, by rw [hv, Option.map_some']⟩

theorem Bisection_returns_of_lipschitz (poly : Polynomial α) (L accuracy : α) (hacc : accuracy ≠ 0)
    (k : Nat) (x0 x1 : α) (hsign : SignChange poly x0 x1)
    (hlip : LipschitzOnBracket poly L x0 x1) (hk : L * |x1 - x0| ≤ |accuracy| * 2 ^ (k + 1)) :
    ∃ r, Bisection k poly x0 x1 accuracy = some (r, none) := by
  induction k generalizing x0 x1 with
  | zero =>
    have hthr : |execute poly ((x0 + x1) / 2)| < |accuracy| := by
      by_cases hz : execute poly ((x0 + x1) / 2) = 0
      · rw [hz, abs_zero]
        exact abs_pos.mpr hacc
      · have := abs_execute_midpoint_lt poly L x0 x1 hsign hlip hz
        simp only [zero_add, pow_one] at hk
        linarith
    exact ⟨(x0 + x1) / 2, by simp only [Bisection, BisectionBody, hthr, if_true]⟩
  | succ k ih =>
    have hpow : |accuracy| * 2 ^ (k + 1 + 1) = 2 * (|accuracy| * 2 ^ (k + 1)) := by ring
    rw [hpow] at hk
    refine BisectionBody_returns _ poly x0 x1 accuracy hacc hsign (fun hs => ?_) (fun hs => ?_)
    · obtain ⟨r, hr⟩ := ih x0 ((x0 + x1) / 2) hs hlip.left_half (by
        rw [abs_midpoint_sub_left]
        linarith)
      exact ⟨_, hr⟩
    · obtain ⟨r, hr⟩ := ih ((x0 + x1) / 2) x1 hs hlip.right_half (by
        rw [abs_right_sub_midpoint]
        linarith)
      exact ⟨_, hr⟩

theorem bisectionIterLoopUp_spec (poly : Polynomial α) (n : Nat) (x0 x1 : α)
    (h0 : execute poly x0 < 0) (h1 : 0 < execute poly x1) :
    ∃ a b, bisectionIterLoopUp poly n x0 x1 = Except.ok (a, b) ∧
      execute poly a < 0 ∧ 0 < execute poly b ∧
      min x0 x1 ≤ min a b ∧ max a b ≤ max x0 x1 ∧
      (|b - a| * 2 ^ n = |x1 - x0| ∨ execute poly ((a + b) / 2) = 0) := by
  induction n generalizing x0 x1 with
  | zero => exact ⟨x0, x1, rfl, h0, h1, le_refl _, le_refl _, Or.inl (by simp)⟩
  | succ n ih =>
    have hm := midpoint_mem x0 x1
    unfold bisectionIterLoopUp
    by_cases hpos : execute poly ((x0 + x1) / 2) > 0
    · rw [if_pos hpos]
      obtain ⟨a, b, hab, ha, hb, hlo, hhi, hw⟩ := ih x0 ((x0 + x1) / 2) h0 hpos
      refine ⟨a, b, hab, ha, hb, le_trans (le_min (min_le_left _ _) hm.1) hlo,
        le_trans hhi (max_le (le_max_left _ _) hm.2), ?_⟩
      rcases hw with hw | hw
      · left
        rw [abs_midpoint_sub_left] at hw
        rw [pow_succ]
        linarith
      · exact Or.inr hw
    · rw [if_neg hpos]
      by_cases hneg : execute poly ((x0 + x1) / 2) < 0
      · rw [if_pos hneg]
        obtain ⟨a, b, hab, ha, hb, hlo, hhi, hw⟩ := ih ((x0 + x1) / 2) x1 hneg h1
        refine ⟨a, b, hab, ha, hb, le_trans (le_min hm.1 (min_le_right _ _)) hlo,
          le_trans hhi (max_le hm.2 (le_max_right _ _)), ?_⟩
        rcases hw with hw | hw
        · left
          rw [abs_right_sub_midpoint] at hw
          rw [pow_succ]
          linarith
        · exact Or.inr hw
      · have hz : execute poly ((x0 + x1) / 2) = 0 :=
          le_antisymm (not_lt.mp hpos) (not_lt.mp hneg)
        rw [if_neg hneg, if_pos hz]
        exact ⟨x0, x1, rfl, h0, h1, le_refl _, le_refl _, Or.inr hz⟩

/-! ## The accuracy-bounded Newton loop as a least iterate -/

theorem whileLoop_eq_some_iff {σ : Type} (cond : σ → Prop) [DecidablePred cond] (body : σ → σ)
    (fuel : Nat) (s t : σ) :
    whileLoop cond body fuel s = some t ↔
      ∃ k, k ≤ fuel ∧ t = body^[k] s ∧ ¬ cond (body^[k] s) ∧ ∀ j, j < k → cond (body^[j] s) := by
  induction fuel generalizing s with
  | zero =>
    unfold whileLoop
    constructor
    · intro h
      split_ifs at h with hc
      cases h
      exact ⟨0, le_refl _, rfl, hc, fun j hj => absurd hj (Nat.not_lt_zero j)⟩
    · rintro ⟨k, hk, ht, hstop, _⟩
      obtain rfl : k = 0 := Nat.le_zero.mp hk
      have hstop' : ¬ cond s := hstop
      rw [if_neg hstop', ht]
      rfl
  | succ fuel ih =>
    rw [whileLoop]
    by_cases hc : cond s
    · rw [if_pos hc, ih]
      constructor
      · rintro ⟨k, hk, ht, hstop, hbefore⟩
        refine ⟨k + 1, Nat.succ_le_succ hk, ht, hstop, fun j hj => ?_⟩
        cases j with
        | zero => exact hc
        | succ j => exact hbefore j (Nat.lt_of_succ_lt_succ hj)
      · rintro ⟨k, hk, ht, hstop, hbefore⟩
        cases k with
        | zero => exact absurd hc hstop
        | succ k =>
          exact ⟨k, Nat.le_of_succ_le_succ hk, ht, hstop,
            fun j hj => hbefore (j + 1) (Nat.succ_lt_succ hj)⟩
    · rw [if_neg hc]
      constructor
      · intro h
        cases h
        exact ⟨0, Nat.zero_le _, rfl, hc, fun j hj => absurd hj (Nat.not_lt_zero j)⟩
      · rintro ⟨k, _, ht, _, hbefore⟩
        cases k with
        | zero => rw [ht]; rfl
        | succ k => exact absurd (hbefore 0 (Nat.succ_pos k)) hc

theorem last_iterate_append {F : Type} [Zero F] (step : F → F) (k : Nat)
    (approximations : List F) :
    last ((fun a => a ++ [step (last a)])^[k] approximations) = step^[k] (last approximations) := by
  induction k generalizing approximations with
  | zero => rfl
  | succ k ih =>
    rw [Function.iterate_succ_apply, Function.iterate_succ_apply, ih, last_append_singleton]

theorem Newton_eq_some_iff_guard {F : Type} [Zero F] [Add F] [Sub F] [Mul F] [Div F] [NatCast F] [Pow F Nat]
    [LT F] [DecidableRel (fun a b : F => a < b)] [HasAbs F]
    (fuel : Nat) (poly : Polynomial F) (x0 accuracy : F) (r : F × Option Err)
    (hlen : 2 ≤ poly.length) :
    Newton fuel poly x0 accuracy = some r ↔
      ∃ k, k ≤ fuel ∧ r = ((newtonMap poly)^[k] x0, none) ∧
        ¬ HasAbs.fabs (execute poly ((newtonMap poly)^[k] x0)) > HasAbs.fabs accuracy ∧
        ∀ j, j < k →
          HasAbs.fabs (execute poly ((newtonMap poly)^[j] x0)) > HasAbs.fabs accuracy := by
  have hguard : ¬ poly.length ≤ 1 := by omega
  have hbody : (fun approximations : List F => approximations ++
      [last approximations - execute poly (last approximations) /
        execute (derivative poly) (last approximations)]) =
      fun a => a ++ [newtonMap poly (last a)] := rfl
  simp only [Newton, hguard, if_false, Option.map_eq_some', whileLoop_eq_some_iff, hbody]
  constructor
  · rintro ⟨a, ⟨k, hk, ha, hstop, hbefore⟩, rfl⟩
    refine ⟨k, hk, ?_, ?_, fun j hj => ?_⟩
    · rw [ha, last_iterate_append, last_singleton]
    · rw [last_iterate_append, last_singleton] at hstop
      exact hstop
    · have := hbefore j hj
      rw [last_iterate_append, last_singleton] at this
      exact this
  · rintro ⟨k, hk, rfl, hstop, hbefore⟩
    refine ⟨_, ⟨k, hk, rfl, ?_, fun j hj => ?_⟩, ?_⟩
    · rw [last_iterate_append, last_singleton]
      exact hstop
    · rw [last_iterate_append, last_singleton]
      exact hbefore j hj
    · rw [last_iterate_append, last_singleton]

theorem Newton_eq_some_iff (fuel : Nat) (poly : Polynomial α) (x0 accuracy : α)
    (r : α × Option Err) (hlen : 2 ≤ poly.length) :
    Newton fuel poly x0 accuracy = some r ↔
      ∃ k, k ≤ fuel ∧ r = ((newtonMap poly)^[k] x0, none) ∧
        |execute poly ((newtonMap poly)^[k] x0)| ≤ |accuracy| ∧
        ∀ j, j < k → ¬ |execute poly ((newtonMap poly)^[j] x0)| ≤ |accuracy| := by
  have hguard : ¬ poly.length ≤ 1 := by omega
  have hbody : (fun approximations : List α => approximations ++
      [last approximations - execute poly (last approximations) /
        execute (derivative poly) (last approximations)]) =
      fun a => a ++ [newtonMap poly (last a)] := rfl
  simp only [Newton, hguard, if_false, Option.map_eq_some', whileLoop_eq_some_iff, hbody]
  constructor
  · rintro ⟨a, ⟨k, hk, ha, hstop, hbefore⟩, rfl⟩
    refine ⟨k, hk, ?_, ?_, fun j hj => ?_⟩
    · rw [ha, last_iterate_append, last_singleton]
    · rw [last_iterate_append, last_singleton] at hstop
      exact not_lt.mp hstop
    · have := hbefore j hj
      rw [last_iterate_append, last_singleton] at this
      exact not_le.mpr this
  · rintro ⟨k, hk, rfl, hstop, hbefore⟩
    refine ⟨_, ⟨k, hk, rfl, ?_, fun j hj => ?_⟩, ?_⟩
    · rw [last_iterate_append, last_singleton]
      exact not_lt.mpr hstop
    · rw [last_iterate_append, last_singleton]
      exact not_le.mp (hbefore j hj)
    · rw [last_iterate_append, last_singleton]

theorem NewtonIter_pred (poly : Polynomial α) (x0 : α) (k : Nat) (hlen : 2 ≤ poly.length) :
    NewtonIter poly x0 ((k : Int) - 1) = ((newtonMap poly)^[k] x0, none) := by
  cases k with
  | zero =>
    have hguard : ¬ poly.length ≤ 1 := by omega
    simp [NewtonIter, hguard, forCount, last]
  | succ k =>
    have h : ((k + 1 : Nat) : Int) - 1 = (k : Int) := by omega
    rw [h, NewtonIter_eq_iterate poly x0 k hlen]

theorem newtonMap_linear (c0 c1 x : α) (hc1 : c1 ≠ 0) : newtonMap [c0, c1] x = -c0 / c1 := by
  simp only [newtonMap, derivative, execute, forRange, forCount, List.length_cons,
    List.length_nil, List.getD_cons_zero, List.getD_cons_succ, Nat.cast_one]
  field_simp
  ring

/-! ## One activation of `Bisection` below the threshold -/

theorem BisectionBody_step (self : α → α → Option (α × Option Err)) (poly : Polynomial α)
    (x0 x1 accuracy : α) (hsign : SignChange poly x0 x1)
    (hthr : |accuracy| ≤ |execute poly ((x0 + x1) / 2)|)
    (hne : execute poly ((x0 + x1) / 2) ≠ 0) :
    (SignChange poly x0 ((x0 + x1) / 2) ∧
      BisectionBody self poly x0 x1 accuracy =
        (self x0 ((x0 + x1) / 2)).map fun _ => ((x0 + (x0 + x1) / 2) / 2, none)) ∨
    (SignChange poly ((x0 + x1) / 2) x1 ∧
      BisectionBody self poly x0 x1 accuracy =
        (self ((x0 + x1) / 2) x1).map fun _ => (((x0 + x1) / 2 + x1) / 2, none)) := by
  simp only [BisectionBody]
  rw [if_neg (not_lt.mpr hthr)]
  rcases hsign with ⟨h0, h1⟩ | ⟨h0, h1⟩
  · rw [if_pos ⟨h0, h1⟩]
    rcases lt_or_gt_of_ne hne with hneg | hpos
    · rw [if_neg (not_lt.mpr hneg.le), if_pos hneg]
      exact Or.inr ⟨Or.inl ⟨hneg, h1⟩, rfl⟩
    · rw [if_pos hpos]
      exact Or.inl ⟨Or.inl ⟨h0, hpos⟩, rfl⟩
  · rw [if_neg (fun c => lt_asymm c.1 h0), if_pos ⟨h0, h1⟩]
    rcases lt_or_gt_of_ne hne with hneg | hpos
    · rw [if_neg (not_lt.mpr hneg.le), if_pos hneg]
      exact Or.inl ⟨Or.inr ⟨h0, hneg⟩, rfl⟩
    · rw [if_pos hpos]
      exact Or.inr ⟨Or.inr ⟨hpos, h1⟩, rfl⟩

/-! ## Claims -/

/-- C1 (code defect): on the sign-changing bracket `(-1, 7)` of `f(x) = x` with accuracy `1/4`,
Go `Bisection` returns `1` with a nil error although `|f(1)| = 1` is not below `1/4`: the value
of the recursive call is thrown away and the midpoint of the first half-bracket is returned. -/
theorem C1_bisection_residual_fails :
    execute [(0 : ℚ), 1] (-1) < 0 ∧ 0 < execute [(0 : ℚ), 1] 7 ∧
      Bisection 2 [(0 : ℚ), 1] (-1) 7 (1 / 4) = some (1, none) ∧
      ¬ |execute [(0 : ℚ), 1] 1| < 1 / 4 := by
  norm_num [Bisection, BisectionBody, execute, forRange, forCount, abs_div]

/-- C2 (counterexample): for `f(x) = x^2` both `f(-1)` and `f(1)` are strictly positive, yet
`Bisection` with accuracy `1` returns the midpoint `0` with a nil error, not the same-sign error. -/
theorem C2_same_sign_counterexample :
    0 < execute [(0 : ℚ), 0, 1] (-1) ∧ 0 < execute [(0 : ℚ), 0, 1] 1 ∧
      Bisection 0 [(0 : ℚ), 0, 1] (-1) 1 1 = some (0, none) ∧
      Bisection 3 [(0 : ℚ), 0, 1] (-1) 1 1 = some (0, none) := by
  norm_num [Bisection, BisectionBody, execute, forRange, forCount]

/-- C2 (amended): when `f(x0)` and `f(x1)` are both strictly positive or both strictly negative,
`Bisection` returns the midpoint with a nil error if the midpoint passes the threshold test
`|f((x0+x1)/2)| < |accuracy|`, and the same-sign error otherwise, whatever the recursion bound. -/
theorem C2_same_sign_amended (fuel : Nat) (poly : Polynomial α) (x0 x1 accuracy : α)
    (hsign : (0 < execute poly x0 ∧ 0 < execute poly x1) ∨
      (execute poly x0 < 0 ∧ execute poly x1 < 0)) :
    Bisection fuel poly x0 x1 accuracy =
      if |execute poly ((x0 + x1) / 2)| < |accuracy| then some ((x0 + x1) / 2, none)
      else some (0, some Err.sameSign) := by
  have hup : ¬ (execute poly x0 < 0 ∧ execute poly x1 > 0) := by
    rcases hsign with h | h
    · exact fun c => lt_asymm h.1 c.1
    · exact fun c => lt_asymm h.2 c.2
  have hdown : ¬ (execute poly x0 > 0 ∧ execute poly x1 < 0) := by
    rcases hsign with h | h
    · exact fun c => lt_asymm h.2 c.2
    · exact fun c => lt_asymm h.1 c.1
  cases fuel <;> simp only [Bisection, BisectionBody, hup, hdown, if_false]

/-- C2 (amended), at `f(x) = x^2 + 1` on `(-1, 1)` with accuracy `1/2`: the same-sign error. -/
theorem C2_same_sign_amended_witness :
    ((0 < execute [(1 : ℚ), 0, 1] (-1) ∧ 0 < execute [(1 : ℚ), 0, 1] 1) ∨
      (execute [(1 : ℚ), 0, 1] (-1) < 0 ∧ execute [(1 : ℚ), 0, 1] 1 < 0)) ∧
    Bisection 4 [(1 : ℚ), 0, 1] (-1) 1 (1 / 2) = some (0, some Err.sameSign) := by
  have hsign : (0 < execute [(1 : ℚ), 0, 1] (-1) ∧ 0 < execute [(1 : ℚ), 0, 1] 1) ∨
      (execute [(1 : ℚ), 0, 1] (-1) < 0 ∧ execute [(1 : ℚ), 0, 1] 1 < 0) := by
    norm_num [execute, forRange, forCount]
  refine ⟨hsign, ?_⟩
  rw [C2_same_sign_amended 4 [(1 : ℚ), 0, 1] (-1) 1 (1 / 2) hsign]
  norm_num [execute, forRange, forCount, abs_div]

/-- C3 (code defect): for `f(x) = -x` the bracket `(-1, 1)` has `f(-1) > 0 > f(1)`, a valid
bracket in the second orientation, and Go `BisectionIter` returns the same-sign error for it:
the second branch of the function lacks the `return` that follows the loop of the first. -/
theorem C3_bisectionIter_descending_fails :
    execute [(0 : ℚ), -1] (-1) > 0 ∧ execute [(0 : ℚ), -1] 1 < 0 ∧
      BisectionIter [(0 : ℚ), -1] (-1) 1 0 = (0, some Err.sameSign) ∧
      BisectionIter [(0 : ℚ), -1] (-1) 1 3 = (0, some Err.sameSign) := by
  have h0 : execute [(0 : ℚ), -1] (-1) > 0 := by norm_num [execute, forRange, forCount]
  have h1 : execute [(0 : ℚ), -1] 1 < 0 := by norm_num [execute, forRange, forCount]
  exact ⟨h0, h1, BisectionIter_descending _ _ _ 0 h0 h1, BisectionIter_descending _ _ _ 3 h0 h1⟩

/-- C4: `NewtonIter` returns an error exactly when the polynomial has fewer than 2 coefficients
and `HalleyIter` exactly when it has fewer than 3, for every seed and iteration count; `Newton`
and `Halley`, whenever they return, return an error under the same conditions, and they do
return (the degree error) on a polynomial that is too short. -/
theorem C4_degree_guard (poly : Polynomial α) (x0 accuracy : α) (iterations : Int) :
    ((NewtonIter poly x0 iterations).2 ≠ none ↔ poly.length < 2) ∧
    ((HalleyIter poly x0 iterations).2 ≠ none ↔ poly.length < 3) ∧
    (∀ fuel r, Newton fuel poly x0 accuracy = some r → (r.2 ≠ none ↔ poly.length < 2)) ∧
    (∀ fuel r, Halley fuel poly x0 accuracy = some r → (r.2 ≠ none ↔ poly.length < 3)) ∧
    (poly.length < 2 → NewtonIter poly x0 iterations = (0, some Err.notDifferentiable) ∧
      ∀ fuel, Newton fuel poly x0 accuracy = some (0, some Err.notDifferentiable)) ∧
    (poly.length < 3 → HalleyIter poly x0 iterations = (0, some Err.notTwiceDifferentiable) ∧
      ∀ fuel, Halley fuel poly x0 accuracy = some (0, some Err.notTwiceDifferentiable)) := by
  refine ⟨?_, ?_, ?_, ?_, ?_, ?_⟩
  · by_cases h : poly.length ≤ 1
    · simp [NewtonIter, h]; omega
    · simp [NewtonIter, h]; omega
  · by_cases h : poly.length ≤ 2
    · simp [HalleyIter, h]; omega
    · simp [HalleyIter, h]; omega
  · intro fuel r hr
    by_cases h : poly.length ≤ 1
    · simp only [Newton, h, if_true, Option.some.injEq] at hr
      subst hr
      simp; omega
    · simp only [Newton, h, if_false, Option.map_eq_some'] at hr
      obtain ⟨a, _, ha⟩ := hr
      subst ha
      simp; omega
  · intro fuel r hr
    by_cases h : poly.length ≤ 2
    · simp only [Halley, h, if_true, Option.some.injEq] at hr
      subst hr
      simp; omega
    · simp only [Halley, h, if_false, Option.map_eq_some'] at hr
      obtain ⟨a, _, ha⟩ := hr
      subst ha
      simp; omega
  · intro h
    have h1 : poly.length ≤ 1 := by omega
    simp [NewtonIter, Newton, h1]
  · intro h
    have h1 : poly.length ≤ 2 := by omega
    simp [HalleyIter, Halley, h1]

/-- C4, on `poly = [5]` all four solvers fail, and on `x - 1` and `x^2 - 1`, seed `1`, the
accuracy-bounded solvers return with a nil error. -/
theorem C4_degree_guard_witness :
    NewtonIter [(5 : ℚ)] 1 3 = (0, some Err.notDifferentiable) ∧
    Newton 0 [(5 : ℚ)] 1 1 = some (0, some Err.notDifferentiable) ∧
    HalleyIter [(5 : ℚ)] 1 3 = (0, some Err.notTwiceDifferentiable) ∧
    Halley 0 [(5 : ℚ)] 1 1 = some (0, some Err.notTwiceDifferentiable) ∧
    (((1 : ℚ), (none : Option Err)).2 ≠ none ↔ [(-1 : ℚ), 1].length < 2) ∧
    (((1 : ℚ), (none : Option Err)).2 ≠ none ↔ [(-1 : ℚ), 0, 1].length < 3) := by
  have h5 := C4_degree_guard [(5 : ℚ)] 1 1 3
  have hN := (C4_degree_guard [(-1 : ℚ), 1] 1 1 3).2.2.1 0 (1, none)
    (by norm_num [Newton, whileLoop, last, execute, forRange, forCount])
  have hH := (C4_degree_guard [(-1 : ℚ), 0, 1] 1 1 3).2.2.2.1 0 (1, none)
    (by norm_num [Halley, whileLoop, last, execute, forRange, forCount])
  exact ⟨(h5.2.2.2.2.1 (by decide)).1, (h5.2.2.2.2.1 (by decide)).2 0,
    (h5.2.2.2.2.2 (by decide)).1, (h5.2.2.2.2.2 (by decide)).2 0, hN, hH⟩

/-- C5 (code defect): with `iterations = 0` Go `NewtonIter` on `f(x) = x - 1` and seed `0`
returns `1`, the result of one Newton step, instead of the seed; with `iterations = 1` on
`f(x) = x^2 - 2` and seed `1` it returns `17/12`, the second Newton iterate, instead of the first,
`3/2`. The loop `for j := 0; j <= iterations` runs `iterations + 1` times. -/
theorem C5_newtonIter_extra_step :
    NewtonIter [(-1 : ℚ), 1] 0 0 = (1, none) ∧
      (newtonMap [(-1 : ℚ), 1])^[0] 0 = 0 ∧
      NewtonIter [(-2 : ℚ), 0, 1] 1 1 = (17 / 12, none) ∧
      (newtonMap [(-2 : ℚ), 0, 1])^[1] 1 = 3 / 2 := by
  norm_num [NewtonIter, newtonMap, derivative, last, execute, forRange, forCount]

/-- C6: for a polynomial with at least 3 coefficients `HalleyIter(poly, x0, n)` is the `n`-th
iterate of the Halley map started at `x0`, with a nil error, and `SteffensenIter(poly, x0, n)` is
the `n`-th iterate of the Steffensen map; with `n = 0` both return `x0`. -/
theorem C6_halleyIter_steffensenIter_iterate (poly : Polynomial α) (x0 : α) (n : Nat) :
    (3 ≤ poly.length → HalleyIter poly x0 (n : Int) = ((halleyMap poly)^[n] x0, none) ∧
      HalleyIter poly x0 0 = (x0, none)) ∧
    SteffensenIter poly x0 (n : Int) = (steffensenMap poly)^[n] x0 ∧
    SteffensenIter poly x0 0 = x0 := by
  refine ⟨fun hlen => ⟨HalleyIter_eq_iterate poly x0 n hlen, ?_⟩,
    SteffensenIter_eq_iterate poly x0 n, ?_⟩
  · simpa using HalleyIter_eq_iterate poly x0 0 hlen
  · simpa using SteffensenIter_eq_iterate poly x0 0

/-- C6, on `x^2 - 2` with seed `3/2` and one step: Halley gives `99/70`, Steffensen `37/26`. -/
theorem C6_halleyIter_steffensenIter_iterate_witness :
    3 ≤ [(-2 : ℚ), 0, 1].length ∧
    HalleyIter [(-2 : ℚ), 0, 1] (3 / 2) 1 = (99 / 70, none) ∧
    SteffensenIter [(-2 : ℚ), 0, 1] (3 / 2) 1 = 37 / 26 := by
  have h := C6_halleyIter_steffensenIter_iterate [(-2 : ℚ), 0, 1] (3 / 2) 1
  have hH := (h.1 (by decide)).1
  have hS := h.2.1
  have e1 : (halleyMap [(-2 : ℚ), 0, 1])^[1] (3 / 2) = 99 / 70 := by
    norm_num [halleyMap, doubleDerivative, derivative, execute, forRange, forCount]
  have e2 : (steffensenMap [(-2 : ℚ), 0, 1])^[1] (3 / 2) = 37 / 26 := by
    norm_num [steffensenMap, execute, forRange, forCount]
  rw [e1] at hH
  rw [e2] at hS
  exact ⟨by decide, hH, hS⟩

/-- C7: the derivative list has length `len(poly) - 1` and its entry `i` exists exactly when
`poly[i+1]` does and is `(i+1) * poly[i+1]`; the second-derivative list has length
`len(poly) - 2` and its entry `i` is `(i+1) * derivative[i+1] = (i+1)(i+2) * poly[i+2]`;
`[c0,c1,c2,c3]` yields `[c1, 2c2, 3c3]` and then `[2c2, 6c3]`. -/
theorem C7_derivative_coefficients (poly : Polynomial α) (c0 c1 c2 c3 : α) :
    (derivative poly).length = poly.length - 1 ∧
    (∀ i : Nat, (derivative poly)[i]? = poly[i + 1]?.map (fun c => ((i : α) + 1) * c)) ∧
    (doubleDerivative poly).length = poly.length - 2 ∧
    (∀ i : Nat, (doubleDerivative poly)[i]? =
      (derivative poly)[i + 1]?.map (fun c => ((i : α) + 1) * c)) ∧
    (∀ i : Nat, (doubleDerivative poly)[i]? =
      poly[i + 2]?.map (fun c => ((i : α) + 1) * ((i : α) + 2) * c)) ∧
    derivative [c0, c1, c2, c3] = [c1, 2 * c2, 3 * c3] ∧
    doubleDerivative [c0, c1, c2, c3] = [2 * c2, 6 * c3] := by
  refine ⟨derivative_length poly, derivative_getElem_opt poly, ?_, ?_, ?_, ?_, ?_⟩
  · rw [doubleDerivative_eq, derivative_length, derivative_length]
    omega
  · intro i
    rw [doubleDerivative_eq, derivative_getElem_opt]
  · intro i
    rw [doubleDerivative_eq, derivative_getElem_opt, derivative_getElem_opt, Option.map_map]
    congr 1
    funext c
    simp only [Function.comp_apply]
    push_cast
    ring
  · norm_num [derivative, forRange, forCount]
  · norm_num [doubleDerivative, derivative, forRange, forCount]
    ring

/-- C8: `execute(poly, x)` is the sum of `poly[i] * x^i` over `i < len(poly)`; it is `0` for the
empty polynomial and the constant coefficient at `x = 0` (where `x^0 = 1`). Being a total
function into the numbers, it has no error case. -/
theorem C8_execute_is_sum (poly rest : Polynomial α) (x c : α) :
    execute poly x = ∑ i in Finset.range poly.length, poly.getD i 0 * x ^ i ∧
    execute ([] : Polynomial α) x = 0 ∧
    execute (c :: rest) 0 = c := by
  refine ⟨execute_eq_sum poly x, ?_, ?_⟩
  · simp [execute_eq_sum]
  · simp [execute_eq_sum, Finset.sum_range_succ']

/-- C9 (counterexample): on `x + 1` (and `x^2 + 1` for Halley) with seed `0` the residual is `1`;
with accuracy `1` or `-1` the three solvers return the seed at once with a nil error, although
the residual `1` is neither below the accuracy nor below its absolute value. With the infinities
and NaN of `float64`, `Newton` on `x^2 + 1` with seed `0` and accuracy `1/2` divides `1` by
`f'(0) = 0`, moves to `-Inf`, whose residual is NaN, and returns `-Inf` with a nil error: there
the residual is not even at most the accuracy. -/
theorem C9_residual_counterexample :
    Newton 0 [(1 : ℚ), 1] 0 1 = some (0, none) ∧
    Newton 0 [(1 : ℚ), 1] 0 (-1) = some (0, none) ∧
    Halley 0 [(1 : ℚ), 0, 1] 0 1 = some (0, none) ∧
    Steffensen 0 [(1 : ℚ), 1] 0 1 = some 0 ∧
    ¬ |execute [(1 : ℚ), 1] 0| < 1 ∧ ¬ |execute [(1 : ℚ), 1] 0| < -1 ∧
    ¬ |execute [(1 : ℚ), 0, 1] 0| < 1 ∧
    Newton 1 [Extended.fin (1 : ℚ), Extended.fin 0, Extended.fin 1] (Extended.fin 0)
      (Extended.fin (1 / 2)) = some (Extended.inf true, none) ∧
    execute [Extended.fin (1 : ℚ), Extended.fin 0, Extended.fin 1] (Extended.inf true) =
      Extended.nan ∧
    ¬ HasAbs.fabs (execute [Extended.fin (1 : ℚ), Extended.fin 0, Extended.fin 1]
        (Extended.inf true)) ≤ HasAbs.fabs (Extended.fin (1 / 2 : ℚ)) := by
  refine ⟨?_, ?_, ?_, ?_, ?_, ?_, ?_, ?_, ?_, ?_⟩
  · norm_num [Newton, whileLoop, last, execute, forRange, forCount]
  · norm_num [Newton, whileLoop, last, execute, forRange, forCount]
  · norm_num [Halley, whileLoop, last, execute, forRange, forCount]
  · norm_num [Steffensen, whileLoop, last, execute, forRange, forCount]
  · norm_num [execute, forRange, forCount]
  · norm_num [execute, forRange, forCount]
  · norm_num [execute, forRange, forCount]
  · simp [Newton, whileLoop, last, derivative, execute, forRange, forCount, Extended.add,
      Extended.neg, Extended.mul, Extended.div, Extended.pow, Extended.abs, Extended.ltb]
    norm_num [abs_div]
  · simp [execute, forRange, forCount, Extended.add, Extended.mul, Extended.pow]
  · simp [execute, forRange, forCount, Extended.add, Extended.mul, Extended.pow, Extended.abs,
      Extended.leb]

/-- C9 (amended): over every number type, so also over `float64`, whenever the accuracy-bounded
`Newton`, `Halley` or `Steffensen` returns an estimate `r` without error, the loop guard is
false at `r`: `|f(r)| > |accuracy|` does not hold. In exact arithmetic this is
`|f(r)| <= |accuracy|`. -/
theorem C9_guard_fails_on_return {F : Type} [Zero F] [Add F] [Sub F] [Mul F] [Div F] [NatCast F] [Pow F Nat]
    [OfNat F 2] [LT F] [DecidableRel (fun a b : F => a < b)] [HasAbs F]
    (fuel : Nat) (poly : Polynomial F) (x0 accuracy r : F) :
    (Newton fuel poly x0 accuracy = some (r, none) →
      ¬ HasAbs.fabs (execute poly r) > HasAbs.fabs accuracy) ∧
    (Halley fuel poly x0 accuracy = some (r, none) →
      ¬ HasAbs.fabs (execute poly r) > HasAbs.fabs accuracy) ∧
    (Steffensen fuel poly x0 accuracy = some r →
      ¬ HasAbs.fabs (execute poly r) > HasAbs.fabs accuracy) ∧
    ∀ (β : Type) [LinearOrderedField β] (p : Polynomial β) (y0 acc s : β),
      (Newton fuel p y0 acc = some (s, none) → |execute p s| ≤ |acc|) ∧
      (Halley fuel p y0 acc = some (s, none) → |execute p s| ≤ |acc|) ∧
      (Steffensen fuel p y0 acc = some s → |execute p s| ≤ |acc|) :=
  ⟨Newton_guard_fails fuel poly x0 accuracy r, Halley_guard_fails fuel poly x0 accuracy r,
    Steffensen_guard_fails fuel poly x0 accuracy r,
    fun _ _ p y0 acc s => ⟨Newton_residual fuel p y0 acc s, Halley_residual fuel p y0 acc s,
      Steffensen_residual fuel p y0 acc s⟩⟩

/-- C9 (amended), on `x^2 - 2` with seed `3/2` and accuracy `1/10`, where each solver returns
after one correction step (Newton `17/12`, Halley `99/70`, Steffensen `37/26`), and on `x^2 + 1`
with seed `0` and accuracy `1/2` with the infinities and NaN of `float64`, where `Newton`
returns `-Inf`. -/
theorem C9_guard_fails_on_return_witness :
    Newton 1 [(-2 : ℚ), 0, 1] (3 / 2) (1 / 10) = some (17 / 12, none) ∧
    |execute [(-2 : ℚ), 0, 1] (17 / 12)| ≤ |(1 / 10 : ℚ)| ∧
    Halley 1 [(-2 : ℚ), 0, 1] (3 / 2) (1 / 10) = some (99 / 70, none) ∧
    |execute [(-2 : ℚ), 0, 1] (99 / 70)| ≤ |(1 / 10 : ℚ)| ∧
    Steffensen 1 [(-2 : ℚ), 0, 1] (3 / 2) (1 / 10) = some (37 / 26) ∧
    |execute [(-2 : ℚ), 0, 1] (37 / 26)| ≤ |(1 / 10 : ℚ)| ∧
    Newton 1 [Extended.fin (1 : ℚ), Extended.fin 0, Extended.fin 1] (Extended.fin 0)
      (Extended.fin (1 / 2)) = some (Extended.inf true, none) ∧
    ¬ HasAbs.fabs (execute [Extended.fin (1 : ℚ), Extended.fin 0, Extended.fin 1]
        (Extended.inf true)) > HasAbs.fabs (Extended.fin (1 / 2 : ℚ)) := by
  have hN : Newton 1 [(-2 : ℚ), 0, 1] (3 / 2) (1 / 10) = some (17 / 12, none) := by
    norm_num [Newton, whileLoop, last, derivative, execute, forRange, forCount, abs_div]
  have hH : Halley 1 [(-2 : ℚ), 0, 1] (3 / 2) (1 / 10) = some (99 / 70, none) := by
    norm_num [Halley, halleyNext, whileLoop, last, doubleDerivative, derivative, execute,
      forRange, forCount, abs_div]
  have hS : Steffensen 1 [(-2 : ℚ), 0, 1] (3 / 2) (1 / 10) = some (37 / 26) := by
    norm_num [Steffensen, g, whileLoop, last, execute, forRange, forCount, abs_div]
  have hE : Newton 1 [Extended.fin (1 : ℚ), Extended.fin 0, Extended.fin 1] (Extended.fin 0)
      (Extended.fin (1 / 2)) = some (Extended.inf true, none) := by
    simp [Newton, whileLoop, last, derivative, execute, forRange, forCount, Extended.add,
      Extended.neg, Extended.mul, Extended.div, Extended.pow, Extended.abs, Extended.ltb]
    norm_num [abs_div]
  have hq := (C9_guard_fails_on_return 1 [(-2 : ℚ), 0, 1] (3 / 2) (1 / 10) 0).2.2.2 ℚ
  exact ⟨hN, (hq _ _ _ _).1 hN, hH, (hq _ _ _ _).2.1 hH, hS, (hq _ _ _ _).2.2 hS, hE,
    (C9_guard_fails_on_return 1 _ _ _ _).1 hE⟩

/-- C10 (code defect): Go `Secant` iterates while `|x_n| < |accuracy|` and stops as soon as
`|x_n| >= |accuracy|`, the opposite of the stated test. On `x - 1` with seeds `0, 5` and accuracy
`1` it returns the seed `5` without any update; with seeds `3, 0` it does not stop at the
estimate `0`, whose magnitude is below the accuracy, but applies one update and returns `1`. -/
theorem C10_secant_guard_inverted :
    Secant 0 [(-1 : ℚ), 1] 0 5 1 = some 5 ∧ ¬ |(5 : ℚ)| < 1 ∧
    Secant 0 [(-1 : ℚ), 1] 3 0 1 = none ∧
    Secant 1 [(-1 : ℚ), 1] 3 0 1 = some 1 ∧ ¬ |(1 : ℚ)| < 1 := by
  norm_num [Secant, secantNext, whileLoop, last, secondLast, execute, forRange, forCount]

/-- C11 (counterexample): with `iterations` the largest `int`, `2^63 - 1`, the loop bound
`iterations+2` wraps to a negative number, so `SecantIter` runs no update at all: its slice keeps
its 2 seeds, not `iterations + 2` elements, and it returns the seed `x1 = 5`. -/
theorem C11_secantIter_wrap_counterexample :
    (0 : Int) ≤ 9223372036854775807 ∧
    wrapInt64 (9223372036854775807 + 2) = -9223372036854775807 ∧
    (secantIterApproximations [(-1 : ℚ), 1] 0 5 9223372036854775807).length = 2 ∧
    ((2 : Nat) : Int) ≠ 9223372036854775807 + 2 ∧
    SecantIter [(-1 : ℚ), 1] 0 5 9223372036854775807 = 5 := by
  have h : (wrapInt64 (9223372036854775807 + 2)).toNat = 0 := by decide
  refine ⟨by decide, by decide, ?_, by decide, ?_⟩
  · simp [secantIterApproximations, forRange, h, forCount]
  · simp [SecantIter, secantIterApproximations, forRange, h, forCount, last]

/-- C11 (amended): for an iteration count `n >= 0` with `n + 2 < 2^63` (no wrap-around of
`iterations+2`), `SecantIter(poly, x0, x1, n)` runs exactly `n` secant updates: its slice of
approximations is `s 0, ..., s (n+1)` for the secant sequence `s` of the specification, of
length `n + 2`; it returns `s (n+1)`, and `x1` for `n = 0`. -/
theorem C11_secantIter_sequence (poly : Polynomial α) (x0 x1 : α) (n : Nat)
    (hn : (n : Int) + 2 < 2 ^ 63) :
    secantIterApproximations poly x0 x1 (n : Int) =
      (List.range (n + 2)).map (secantSeq poly x0 x1) ∧
    (secantIterApproximations poly x0 x1 (n : Int)).length = n + 2 ∧
    SecantIter poly x0 x1 (n : Int) = secantSeq poly x0 x1 (n + 1) ∧
    SecantIter poly x0 x1 0 = x1 := by
  refine ⟨secantIterApproximations_eq poly x0 x1 n hn, ?_, ?_, ?_⟩
  · simp [secantIterApproximations_eq poly x0 x1 n hn]
  · rw [SecantIter, secantIterApproximations_eq poly x0 x1 n hn, last_map_range]
  · have h := secantIterApproximations_eq poly x0 x1 0 (by norm_num)
    simp only [Nat.cast_zero] at h
    rw [SecantIter, h, last_map_range]
    rfl

/-- C11 (amended), on `x^2 - 2` with seeds `1, 2` and 2 updates: the slice is
`1, 2, 4/3, 7/5` and the result `7/5`. -/
theorem C11_secantIter_sequence_witness :
    ((2 : Nat) : Int) + 2 < 2 ^ 63 ∧
    secantIterApproximations [(-2 : ℚ), 0, 1] 1 2 ((2 : Nat) : Int) = [1, 2, 4 / 3, 7 / 5] ∧
    SecantIter [(-2 : ℚ), 0, 1] 1 2 ((2 : Nat) : Int) = 7 / 5 := by
  have h := C11_secantIter_sequence [(-2 : ℚ), 0, 1] 1 2 2 (by norm_num)
  have e : (List.range (2 + 2)).map (secantSeq [(-2 : ℚ), 0, 1] 1 2) = [1, 2, 4 / 3, 7 / 5] := by
    norm_num [List.range_succ, secantSeq, execute, forRange, forCount]
  have e1 : secantSeq [(-2 : ℚ), 0, 1] 1 2 (2 + 1) = 7 / 5 := by
    norm_num [secantSeq, execute, forRange, forCount]
  refine ⟨by norm_num, ?_, ?_⟩
  · rw [h.1, e]
  · rw [h.2.2.1, e1]

/-- C12 (code defect): Go `Broyden` iterates while `|f(x_n)| < |accuracy|` and stops as soon as
`|f(x_n)| >= |accuracy|`. On `x - 1` with seeds `0, 5` and accuracy `1` it returns the seed `5`,
whose residual is `4`; with seeds `3, 3/2`, where the residual `1/2` is already below the
accuracy, it does not return that estimate but applies further updates (it has not returned
after one round). -/
theorem C12_broyden_guard_inverted :
    Broyden 0 [(-1 : ℚ), 1] 0 5 0 1 = some 5 ∧ ¬ |execute [(-1 : ℚ), 1] 5| < 1 ∧
    |execute [(-1 : ℚ), 1] (3 / 2)| < 1 ∧
    Broyden 0 [(-1 : ℚ), 1] 3 (3 / 2) 0 1 = none ∧
    Broyden 1 [(-1 : ℚ), 1] 3 (3 / 2) 0 1 = none := by
  norm_num [Broyden, fPrime, whileLoop, last, secondLast, execute, forRange, forCount, abs_div]

/-- C13: whenever `Bisection(poly, x0, x1, accuracy)` returns an estimate `r` with a nil error,
`r` lies in `[min(x0,x1), max(x0,x1)]` (for every bracket and accuracy, in particular for a
sign-changing bracket and a positive accuracy). -/
theorem C13_bisection_within_bracket (fuel : Nat) (poly : Polynomial α) (x0 x1 accuracy r : α)
    (h : Bisection fuel poly x0 x1 accuracy = some (r, none)) :
    min x0 x1 ≤ r ∧ r ≤ max x0 x1 := by
  rcases le_total x0 x1 with hle | hle
  · rw [min_eq_left hle, max_eq_right hle]
    rcases Bisection_value fuel poly x0 x1 accuracy r h with rfl | rfl | rfl <;>
      constructor <;> linarith
  · rw [min_eq_right hle, max_eq_left hle]
    rcases Bisection_value fuel poly x0 x1 accuracy r h with rfl | rfl | rfl <;>
      constructor <;> linarith

/-- C13, on `f(x) = x`, bracket `(-1, 7)`, accuracy `1/4`: the estimate `1` lies in `[-1, 7]`. -/
theorem C13_bisection_within_bracket_witness :
    Bisection 2 [(0 : ℚ), 1] (-1) 7 (1 / 4) = some (1, none) ∧
    min (-1 : ℚ) 7 ≤ 1 ∧ (1 : ℚ) ≤ max (-1) 7 := by
  have h : Bisection 2 [(0 : ℚ), 1] (-1) 7 (1 / 4) = some (1, none) := by
    norm_num [Bisection, BisectionBody, execute, forRange, forCount, abs_div]
  exact ⟨h, C13_bisection_within_bracket 2 _ _ _ _ _ h⟩

/-- C14 (code defect): for `f(x) = x - 1` on the bracket `(0, 2)` the midpoint `1` is an exact
zero, and with accuracy `0` Go `Bisection` returns `0` with the error `"error"` instead of the
midpoint `1` with a nil error: the threshold test `|f(m)| < |0|` cannot pass and the exact zero
falls into the last `else` of the sign tests. `BisectionIter` on the same bracket stops at the
exact zero and returns `1` with a nil error. -/
theorem C14_zero_accuracy_fails :
    execute [(-1 : ℚ), 1] 0 < 0 ∧ 0 < execute [(-1 : ℚ), 1] 2 ∧
    execute [(-1 : ℚ), 1] ((0 + 2) / 2) = 0 ∧
    Bisection 0 [(-1 : ℚ), 1] 0 2 0 = some (0, some Err.generic) ∧
    Bisection 3 [(-1 : ℚ), 1] 0 2 0 = some (0, some Err.generic) ∧
    BisectionIter [(-1 : ℚ), 1] 0 2 5 = (1, none) := by
  refine ⟨?_, ?_, ?_, ?_, ?_, ?_⟩
  · norm_num [execute, forRange, forCount]
  · norm_num [execute, forRange, forCount]
  · norm_num [execute, forRange, forCount]
  · norm_num [Bisection, BisectionBody, execute, forRange, forCount]
  · norm_num [Bisection, BisectionBody, execute, forRange, forCount]
  · norm_num [BisectionIter, bisectionIterLoopUp, execute, forRange, forCount]

/-- When the midpoint of the bracket is an exact zero of `f` and the accuracy is not `0`,
`Bisection` returns the midpoint with a nil error, whatever the recursion bound. -/
theorem Bisection_exact_zero_midpoint (fuel : Nat) (poly : Polynomial α) (x0 x1 accuracy : α)
    (hmid : execute poly ((x0 + x1) / 2) = 0) (hacc : accuracy ≠ 0) :
    Bisection fuel poly x0 x1 accuracy = some ((x0 + x1) / 2, none) := by
  have hthr : |execute poly ((x0 + x1) / 2)| < |accuracy| := by
    rw [hmid, abs_zero]
    exact abs_pos.mpr hacc
  cases fuel <;> simp only [Bisection, BisectionBody, hthr, if_true]

/-- C15: in exact arithmetic `Newton` on `x^2 - 2` with seed `3/2` and accuracy `1e-9` does not
return within 2 rounds of its loop and returns after 3 correction steps (fewer than 10) the
estimate `665857/470832` with a nil error, which is within `1e-9` of the square root of 2. -/
theorem C15_newton_sqrt_two :
    Newton 2 [(-2 : ℚ), 0, 1] (3 / 2) (1 / 1000000000) = none ∧
    Newton 3 [(-2 : ℚ), 0, 1] (3 / 2) (1 / 1000000000) = some (665857 / 470832, none) ∧
    (3 : Nat) < 10 ∧
    |(((665857 / 470832 : ℚ)) : ℝ) - Real.sqrt 2| ≤ 1 / 1000000000 := by
  refine ⟨?_, ?_, by decide, ?_⟩
  · norm_num [Newton, whileLoop, last, derivative, execute, forRange, forCount, abs_div]
  · norm_num [Newton, whileLoop, last, derivative, execute, forRange, forCount, abs_div]
  · have hup : Real.sqrt 2 ≤ 665857 / 470832 := by
      rw [Real.sqrt_le_iff]
      constructor <;> norm_num
    have hlo : (665857 / 470832 : ℝ) - 1 / 1000000000 ≤ Real.sqrt 2 := by
      rw [Real.le_sqrt' (by norm_num)]
      norm_num
    rw [abs_le]
    push_cast
    constructor <;> linarith

/-- C16: `Bisection` on `x^2 - 1` with bracket `(0, 2)` and accuracy `1e-6` returns `1` with a
nil error, at once (the midpoint passes the threshold test), and `|1 - 1| <= 1e-6`. -/
theorem C16_bisection_square_minus_one (fuel : Nat) :
    Bisection fuel [(-1 : ℚ), 0, 1] 0 2 (1 / 1000000) = some (1, none) ∧
    |(1 : ℚ) - 1| ≤ 1 / 1000000 := by
  constructor
  · cases fuel <;> norm_num [Bisection, BisectionBody, execute, forRange, forCount, abs_div]
  · norm_num

/-- C18: over the reals, for every polynomial (in particular one with at least 2, respectively
3, coefficients) the function `execute(poly, ·)` has derivative `execute(derivative(poly), x)` at
every `x`, and that derivative function has derivative `execute(doubleDerivative(poly), x)`. -/
theorem C18_derivative_is_derivative (poly : Polynomial ℝ) (x : ℝ) :
    HasDerivAt (fun y => execute poly y) (execute (derivative poly) x) x ∧
    HasDerivAt (fun y => execute (derivative poly) y) (execute (doubleDerivative poly) x) x ∧
    deriv (fun y => execute poly y) x = execute (derivative poly) x ∧
    deriv (deriv (fun y => execute poly y)) x = execute (doubleDerivative poly) x := by
  have hderiv : deriv (fun y => execute poly y) = fun y => execute (derivative poly) y :=
    funext fun y => (execute_hasDerivAt poly y).deriv
  refine ⟨execute_hasDerivAt poly x, ?_, (execute_hasDerivAt poly x).deriv, ?_⟩
  · rw [doubleDerivative_eq]
    exact execute_hasDerivAt (derivative poly) x
  · rw [hderiv, doubleDerivative_eq]
    exact (execute_hasDerivAt (derivative poly) x).deriv

/-- C19: over the reals, when `f(x0) < 0 < f(x1)`, the loop of `BisectionIter` ends with a
bracket `(a, b)` inside the first one with `f(a) < 0 < f(b)`, of width `|x1 - x0| / 2^n` unless it
stopped early on an exact zero at the midpoint; `BisectionIter` returns `r = (a + b) / 2` with a
nil error, and there is a zero `z` of `f` between `x0` and `x1` with
`|r - z| <= |x1 - x0| / 2^(n+1)`. -/
theorem C19_bisectionIter_halves (poly : Polynomial ℝ) (x0 x1 : ℝ) (n : Nat)
    (h0 : execute poly x0 < 0) (h1 : 0 < execute poly x1) :
    ∃ a b r z, bisectionIterLoopUp poly n x0 x1 = Except.ok (a, b) ∧
      BisectionIter poly x0 x1 (n : Int) = (r, none) ∧ r = (a + b) / 2 ∧
      execute poly a < 0 ∧ 0 < execute poly b ∧
      (|b - a| = |x1 - x0| / 2 ^ n ∨ execute poly r = 0) ∧
      min x0 x1 ≤ z ∧ z ≤ max x0 x1 ∧ execute poly z = 0 ∧
      |r - z| ≤ |x1 - x0| / 2 ^ (n + 1) := by
  obtain ⟨a, b, hab, ha, hb, hlo, hhi, hw⟩ := bisectionIterLoopUp_spec poly n x0 x1 h0 h1
  have hres : BisectionIter poly x0 x1 (n : Int) = ((a + b) / 2, none) := by
    simp only [BisectionIter, h0, h1, gt_iff_lt, and_self, if_true, Int.toNat_ofNat, hab]
  have hpow : (0 : ℝ) < 2 ^ n := by positivity
  have hwidth : 0 ≤ |x1 - x0| / 2 ^ (n + 1) := by positivity
  have hm := midpoint_mem a b
  rcases hw with hw | hw
  · have hcont : ContinuousOn (fun y => execute poly y) (Set.uIcc a b) :=
      (execute_continuous poly).continuousOn
    have hzero : (0 : ℝ) ∈ Set.uIcc (execute poly a) (execute poly b) :=
      Set.mem_uIcc.mpr (Or.inl ⟨ha.le, hb.le⟩)
    obtain ⟨z, hz, hfz⟩ := intermediate_value_uIcc hcont hzero
    have hz' : min a b ≤ z ∧ z ≤ max a b := hz
    have hEq : |b - a| = |x1 - x0| / 2 ^ n := by
      rw [eq_div_iff hpow.ne']
      exact hw
    refine ⟨a, b, (a + b) / 2, z, hab, hres, rfl, ha, hb, Or.inl hEq, hlo.trans hz'.1,
      hz'.2.trans hhi, hfz, ?_⟩
    have hdist := abs_midpoint_sub_le a b z hz'.1 hz'.2
    rw [hEq] at hdist
    rw [pow_succ, ← div_div]
    exact hdist
  · refine ⟨a, b, (a + b) / 2, (a + b) / 2, hab, hres, rfl, ha, hb, Or.inr hw,
      hlo.trans hm.1, hm.2.trans hhi, hw, ?_⟩
    rw [sub_self, abs_zero]
    exact hwidth

/-- C19, on `x^2 - 2` with bracket `(1, 2)` and 3 iterations. -/
theorem C19_bisectionIter_halves_witness :
    execute [(-2 : ℝ), 0, 1] 1 < 0 ∧ 0 < execute [(-2 : ℝ), 0, 1] 2 ∧
    ∃ a b r z, bisectionIterLoopUp [(-2 : ℝ), 0, 1] 3 1 2 = Except.ok (a, b) ∧
      BisectionIter [(-2 : ℝ), 0, 1] 1 2 ((3 : Nat) : Int) = (r, none) ∧ r = (a + b) / 2 ∧
      execute [(-2 : ℝ), 0, 1] a < 0 ∧ 0 < execute [(-2 : ℝ), 0, 1] b ∧
      (|b - a| = |(2 : ℝ) - 1| / 2 ^ 3 ∨ execute [(-2 : ℝ), 0, 1] r = 0) ∧
      min (1 : ℝ) 2 ≤ z ∧ z ≤ max (1 : ℝ) 2 ∧ execute [(-2 : ℝ), 0, 1] z = 0 ∧
      |r - z| ≤ |(2 : ℝ) - 1| / 2 ^ (3 + 1) := by
  have h0 : execute [(-2 : ℝ), 0, 1] 1 < 0 := by norm_num [execute, forRange, forCount]
  have h1 : 0 < execute [(-2 : ℝ), 0, 1] 2 := by norm_num [execute, forRange, forCount]
  exact ⟨h0, h1, C19_bisectionIter_halves [(-2 : ℝ), 0, 1] 1 2 3 h0 h1⟩

/-- C20: over the reals, when `f(x0)` and `f(x1)` have strictly opposite signs and the accuracy
is not `0`, the recursion of `Bisection` terminates: some recursion depth suffices for it to
return an estimate with a nil error, the same for every larger bound. -/
theorem C20_bisection_terminates (poly : Polynomial ℝ) (x0 x1 accuracy : ℝ)
    (hsign : SignChange poly x0 x1) (hacc : accuracy ≠ 0) :
    ∃ fuel r, ∀ fuel', fuel ≤ fuel' → Bisection fuel' poly x0 x1 accuracy = some (r, none) := by
  obtain ⟨L, hlip⟩ := exists_lipschitzOnBracket poly x0 x1
  obtain ⟨k, hk⟩ := pow_unbounded_of_one_lt (L * |x1 - x0| / |accuracy|) (one_lt_two (α := ℝ))
  have hpos : 0 < |accuracy| := abs_pos.mpr hacc
  obtain ⟨r, hr⟩ := Bisection_returns_of_lipschitz poly L accuracy hacc k x0 x1 hsign hlip (by
    rw [div_lt_iff₀ hpos] at hk
    rw [pow_succ]
    have : (0 : ℝ) < 2 ^ k := by positivity
    nlinarith)
  exact ⟨k, r, fun fuel' hle => Bisection_fuel_mono k fuel' hle poly x0 x1 accuracy _ hr⟩

/-- C20, on `x^2 - 2` with bracket `(1, 2)` and accuracy `1/1000`. -/
theorem C20_bisection_terminates_witness :
    SignChange [(-2 : ℝ), 0, 1] 1 2 ∧ (1 / 1000 : ℝ) ≠ 0 ∧
    ∃ fuel r, ∀ fuel', fuel ≤ fuel' →
      Bisection fuel' [(-2 : ℝ), 0, 1] 1 2 (1 / 1000) = some (r, none) := by
  have hsign : SignChange [(-2 : ℝ), 0, 1] 1 2 := by
    norm_num [SignChange, execute, forRange, forCount]
  exact ⟨hsign, by norm_num, C20_bisection_terminates _ 1 2 (1 / 1000) hsign (by norm_num)⟩

/-- C21: when `f` changes sign on `(x0, x1)` and the midpoint `m` is not a zero of `f`, there is
one half-bracket `(a, b)`, either `(x0, m)` or `(m, x1)`, on which `f` changes sign, with midpoint
`r = (3*x0 + x1)/4`, respectively `(x0 + 3*x1)/4`, such that for every accuracy with
`|f(m)| >= |accuracy|` `Bisection` returns exactly when its recursive call on `(a, b)` returns,
and then returns `r` with a nil error, whatever the accuracy and the result of that call. -/
theorem C21_bisection_returns_half_bracket_midpoint (poly : Polynomial α) (x0 x1 : α)
    (hsign : SignChange poly x0 x1) (hne : execute poly ((x0 + x1) / 2) ≠ 0) :
    ∃ a b r, ((a = x0 ∧ b = (x0 + x1) / 2 ∧ r = (3 * x0 + x1) / 4) ∨
        (a = (x0 + x1) / 2 ∧ b = x1 ∧ r = (x0 + 3 * x1) / 4)) ∧
      SignChange poly a b ∧ r = (a + b) / 2 ∧
      ∀ accuracy, |accuracy| ≤ |execute poly ((x0 + x1) / 2)| →
        Bisection 0 poly x0 x1 accuracy = none ∧
        (∀ fuel, Bisection (fuel + 1) poly x0 x1 accuracy =
          (Bisection fuel poly a b accuracy).map fun _ => (r, none)) ∧
        ∀ fuel v, Bisection fuel poly x0 x1 accuracy = some v → v = (r, none) := by
  have key : ∀ (a b r : α), r = (a + b) / 2 →
      (∀ (self : α → α → Option (α × Option Err)) (accuracy : α),
        |accuracy| ≤ |execute poly ((x0 + x1) / 2)| →
        BisectionBody self poly x0 x1 accuracy = (self a b).map fun _ => ((a + b) / 2, none)) →
      ∀ accuracy, |accuracy| ≤ |execute poly ((x0 + x1) / 2)| →
        Bisection 0 poly x0 x1 accuracy = none ∧
        (∀ fuel, Bisection (fuel + 1) poly x0 x1 accuracy =
          (Bisection fuel poly a b accuracy).map fun _ => (r, none)) ∧
        ∀ fuel v, Bisection fuel poly x0 x1 accuracy = some v → v = (r, none) := by
    intro a b r hr hbody accuracy hthr
    subst hr
    have h0 : Bisection 0 poly x0 x1 accuracy = none := by
      show BisectionBody (fun _ _ => none) poly x0 x1 accuracy = none
      rw [hbody _ accuracy hthr]
      rfl
    have hs : ∀ fuel, Bisection (fuel + 1) poly x0 x1 accuracy =
        (Bisection fuel poly a b accuracy).map fun _ => ((a + b) / 2, none) := by
      intro fuel
      show BisectionBody (fun c d => Bisection fuel poly c d accuracy) poly x0 x1 accuracy = _
      rw [hbody _ accuracy hthr]
    refine ⟨h0, hs, fun fuel v hv => ?_⟩
    cases fuel with
    | zero => rw [h0] at hv; cases hv
    | succ fuel =>
      rw [hs fuel, Option.map_eq_some'] at hv
      obtain ⟨_, _, hv⟩ := hv
      exact hv.symm
  by_cases hleft : SignChange poly x0 ((x0 + x1) / 2)
  · refine ⟨x0, (x0 + x1) / 2, (3 * x0 + x1) / 4, Or.inl ⟨rfl, rfl, rfl⟩, hleft, by ring,
      key _ _ _ (by ring) fun self accuracy hthr => ?_⟩
    rcases BisectionBody_step self poly x0 x1 accuracy hsign hthr hne with ⟨_, h⟩ | ⟨hright, _⟩
    · exact h
    · exfalso
      rcases hleft with ⟨_, hm⟩ | ⟨_, hm⟩ <;> rcases hright with ⟨hm', _⟩ | ⟨hm', _⟩ <;>
        rcases hsign with ⟨h0, h1⟩ | ⟨h0, h1⟩ <;> linarith
  · have hright : ∀ (self : α → α → Option (α × Option Err)) (accuracy : α),
        |accuracy| ≤ |execute poly ((x0 + x1) / 2)| →
        SignChange poly ((x0 + x1) / 2) x1 ∧ BisectionBody self poly x0 x1 accuracy =
          (self ((x0 + x1) / 2) x1).map fun _ => (((x0 + x1) / 2 + x1) / 2, none) := by
      intro self accuracy hthr
      rcases BisectionBody_step self poly x0 x1 accuracy hsign hthr hne with ⟨h, _⟩ | h
      · exact absurd h hleft
      · exact h
    refine ⟨(x0 + x1) / 2, x1, (x0 + 3 * x1) / 4, Or.inr ⟨rfl, rfl, rfl⟩,
      (hright (fun _ _ => none) 0 (by simp)).1, by ring,
      key _ _ _ (by ring) fun self accuracy hthr => (hright self accuracy hthr).2⟩

/-- C21, on `f(x) = x` with the bracket `(-1, 7)`, whose midpoint is `3`. -/
theorem C21_bisection_returns_half_bracket_midpoint_witness :
    SignChange [(0 : ℚ), 1] (-1) 7 ∧ execute [(0 : ℚ), 1] ((-1 + 7) / 2) ≠ 0 ∧
    ∃ a b r, ((a = (-1 : ℚ) ∧ b = (-1 + 7) / 2 ∧ r = (3 * (-1) + 7) / 4) ∨
        (a = (-1 + 7) / 2 ∧ b = (7 : ℚ) ∧ r = (-1 + 3 * 7) / 4)) ∧
      SignChange [(0 : ℚ), 1] a b ∧ r = (a + b) / 2 ∧
      ∀ accuracy, |accuracy| ≤ |execute [(0 : ℚ), 1] ((-1 + 7) / 2)| →
        Bisection 0 [(0 : ℚ), 1] (-1) 7 accuracy = none ∧
        (∀ fuel, Bisection (fuel + 1) [(0 : ℚ), 1] (-1) 7 accuracy =
          (Bisection fuel [(0 : ℚ), 1] a b accuracy).map fun _ => (r, none)) ∧
        ∀ fuel v, Bisection fuel [(0 : ℚ), 1] (-1) 7 accuracy = some v → v = (r, none) := by
  have hsign : SignChange [(0 : ℚ), 1] (-1) 7 := by
    norm_num [SignChange, execute, forRange, forCount]
  have hne : execute [(0 : ℚ), 1] ((-1 + 7) / 2) ≠ 0 := by
    norm_num [execute, forRange, forCount]
  exact ⟨hsign, hne, C21_bisection_returns_half_bracket_midpoint _ _ _ hsign hne⟩

/-- C22 (counterexample): with the infinities and NaN of `float64`, `Newton` on `x^2 + 1` with
seed `0` and accuracy `1/2` returns after one round the first Newton iterate `-Inf` (a division
of `1` by `f'(0) = 0`) with a nil error; its residual is NaN, which is not at most the accuracy,
and the residual `1` of the seed is not either. -/
theorem C22_nan_exit_counterexample :
    2 ≤ [Extended.fin (1 : ℚ), Extended.fin 0, Extended.fin 1].length ∧
    Newton 1 [Extended.fin (1 : ℚ), Extended.fin 0, Extended.fin 1] (Extended.fin 0)
      (Extended.fin (1 / 2)) = some (Extended.inf true, none) ∧
    (newtonMap [Extended.fin (1 : ℚ), Extended.fin 0, Extended.fin 1])^[1] (Extended.fin 0) =
      Extended.inf true ∧
    execute [Extended.fin (1 : ℚ), Extended.fin 0, Extended.fin 1] (Extended.inf true) =
      Extended.nan ∧
    ¬ HasAbs.fabs (execute [Extended.fin (1 : ℚ), Extended.fin 0, Extended.fin 1]
        (Extended.inf true)) ≤ HasAbs.fabs (Extended.fin (1 / 2 : ℚ)) ∧
    ¬ HasAbs.fabs (execute [Extended.fin (1 : ℚ), Extended.fin 0, Extended.fin 1]
        (Extended.fin 0)) ≤ HasAbs.fabs (Extended.fin (1 / 2 : ℚ)) := by
  refine ⟨by decide, ?_, ?_, ?_, ?_, ?_⟩
  · simp [Newton, whileLoop, last, derivative, execute, forRange, forCount, Extended.add,
      Extended.neg, Extended.mul, Extended.div, Extended.pow, Extended.abs, Extended.ltb]
    norm_num [abs_div]
  · simp [newtonMap, derivative, execute, forRange, forCount, Extended.add,
      Extended.neg, Extended.mul, Extended.div, Extended.pow]
  · simp [execute, forRange, forCount, Extended.add, Extended.mul, Extended.pow]
  · simp [execute, forRange, forCount, Extended.add, Extended.mul, Extended.pow, Extended.abs,
      Extended.leb]
  · simp [execute, forRange, forCount, Extended.add, Extended.mul, Extended.pow, Extended.abs,
      Extended.leb]
    norm_num [abs_div]

/-- C22 (amended): over every number type, so also over `float64`, for a polynomial with at
least 2 coefficients `Newton` returns `r` within `fuel` rounds exactly when `r` is, with a nil
error, the `k`-th Newton iterate of `x0` for the least `k` at which the loop guard
`|f(x_k)| > |accuracy|` is false (and `k <= fuel`); only `|accuracy|` matters; and `x0` is
returned unchanged when the guard is false at `x0`. In exact arithmetic the guard is false
exactly when `|f(x_k)| <= |accuracy|`, and the result is that of `NewtonIter` with `k - 1` for
its iteration count (its loop runs one more round than the count). -/
theorem C22_newton_first_guard_failure {F : Type} [Zero F] [Add F] [Sub F] [Mul F] [Div F] [NatCast F] [Pow F Nat]
    [LT F] [DecidableRel (fun a b : F => a < b)] [HasAbs F]
    (fuel : Nat) (poly : Polynomial F) (x0 accuracy : F) (hlen : 2 ≤ poly.length) :
    (∀ r, Newton fuel poly x0 accuracy = some r ↔
      ∃ k, k ≤ fuel ∧ r = ((newtonMap poly)^[k] x0, none) ∧
        ¬ HasAbs.fabs (execute poly ((newtonMap poly)^[k] x0)) > HasAbs.fabs accuracy ∧
        ∀ j, j < k →
          HasAbs.fabs (execute poly ((newtonMap poly)^[j] x0)) > HasAbs.fabs accuracy) ∧
    (∀ accuracy', HasAbs.fabs accuracy' = HasAbs.fabs accuracy →
      Newton fuel poly x0 accuracy' = Newton fuel poly x0 accuracy) ∧
    (¬ HasAbs.fabs (execute poly x0) > HasAbs.fabs accuracy →
      Newton fuel poly x0 accuracy = some (x0, none)) ∧
    ∀ (β : Type) [LinearOrderedField β] (p : Polynomial β) (y0 acc : β), 2 ≤ p.length →
      ∀ s, Newton fuel p y0 acc = some s ↔
        ∃ k, k ≤ fuel ∧ s = ((newtonMap p)^[k] y0, none) ∧
          s = NewtonIter p y0 ((k : Int) - 1) ∧
          |execute p ((newtonMap p)^[k] y0)| ≤ |acc| ∧
          ∀ j, j < k → ¬ |execute p ((newtonMap p)^[j] y0)| ≤ |acc| := by
  refine ⟨fun r => Newton_eq_some_iff_guard fuel poly x0 accuracy r hlen,
    fun accuracy' habs => ?_, fun h0 => ?_, fun β _ p y0 acc hp s => ?_⟩
  · simp only [Newton, habs]
  · exact (Newton_eq_some_iff_guard fuel poly x0 accuracy _ hlen).mpr
      ⟨0, Nat.zero_le _, rfl, h0, fun j hj => absurd hj (Nat.not_lt_zero j)⟩
  · rw [Newton_eq_some_iff fuel p y0 acc s hp]
    constructor
    · rintro ⟨k, hk, rfl, hstop, hbefore⟩
      exact ⟨k, hk, rfl, (NewtonIter_pred p y0 k hp).symm, hstop, hbefore⟩
    · rintro ⟨k, hk, hs, _, hstop, hbefore⟩
      exact ⟨k, hk, hs, hstop, hbefore⟩

/-- C22 (amended), on `x^2 - 2` with seed `3/2` and accuracy `1/1000`: `Newton` returns
`577/408`. -/
theorem C22_newton_first_guard_failure_witness :
    2 ≤ [(-2 : ℚ), 0, 1].length ∧
    Newton 2 [(-2 : ℚ), 0, 1] (3 / 2) (1 / 1000) = some (577 / 408, none) ∧
    ∃ k, k ≤ 2 ∧ ((577 / 408 : ℚ), (none : Option Err)) =
        ((newtonMap [(-2 : ℚ), 0, 1])^[k] (3 / 2), none) ∧
      ¬ HasAbs.fabs (execute [(-2 : ℚ), 0, 1] ((newtonMap [(-2 : ℚ), 0, 1])^[k] (3 / 2))) >
        HasAbs.fabs (1 / 1000 : ℚ) ∧
      ∀ j, j < k →
        HasAbs.fabs (execute [(-2 : ℚ), 0, 1] ((newtonMap [(-2 : ℚ), 0, 1])^[j] (3 / 2))) >
          HasAbs.fabs (1 / 1000 : ℚ) := by
  have h : Newton 2 [(-2 : ℚ), 0, 1] (3 / 2) (1 / 1000) = some (577 / 408, none) := by
    norm_num [Newton, whileLoop, last, derivative, execute, forRange, forCount, abs_div]
  exact ⟨by decide, h,
    ((C22_newton_first_guard_failure 2 [(-2 : ℚ), 0, 1] (3 / 2) (1 / 1000) (by decide)).1 _).mp h⟩

/-- C23: for `poly = [c0, c1]` with `c1 ≠ 0`, every seed and every iteration count `n >= 0`,
`NewtonIter` returns the root `-c0/c1` with a nil error; one Newton step from any seed lands on
the root and a step from the root leaves it fixed. -/
theorem C23_newtonIter_linear (c0 c1 x0 : α) (n : Nat) (hc1 : c1 ≠ 0) :
    NewtonIter [c0, c1] x0 (n : Int) = (-c0 / c1, none) ∧
    execute [c0, c1] (-c0 / c1) = 0 ∧
    newtonMap [c0, c1] x0 = -c0 / c1 ∧
    newtonMap [c0, c1] (-c0 / c1) = -c0 / c1 := by
  refine ⟨?_, ?_, newtonMap_linear c0 c1 x0 hc1, newtonMap_linear c0 c1 _ hc1⟩
  · rw [NewtonIter_eq_iterate [c0, c1] x0 n (by simp), Function.iterate_succ_apply',
      newtonMap_linear c0 c1 _ hc1]
  · simp only [execute, forRange, forCount, List.length_cons, List.length_nil,
      List.getD_cons_zero, List.getD_cons_succ]
    field_simp
    ring

/-- C23, on `3x - 6` with seed `10` and iteration counts `0` and `4`: the root `2`. -/
theorem C23_newtonIter_linear_witness :
    (3 : ℚ) ≠ 0 ∧ NewtonIter [(-6 : ℚ), 3] 10 ((0 : Nat) : Int) = (2, none) ∧
    NewtonIter [(-6 : ℚ), 3] 10 ((4 : Nat) : Int) = (2, none) := by
  have h0 := (C23_newtonIter_linear (-6 : ℚ) 3 10 0 (by norm_num)).1
  have h4 := (C23_newtonIter_linear (-6 : ℚ) 3 10 4 (by norm_num)).1
  norm_num at h0 h4
  exact ⟨by norm_num, h0, h4⟩

end Approx
